import Mathlib

/-
Shallow embedding of v8 `src/interpreter/constant-array-builder.cc`
(ConstantArrayBuilder and its inner ConstantArraySlice), together with
proofs about the claims of the specification.

Modelling conventions:
* Constant values (`Handle<Object>`) are opaque heap references compared by
  identity; they are modelled by the inductive type `Obj`, where
  `Obj.theHole` is the distinguished sentinel (`the_hole_value`) and
  `Obj.val n` are ordinary constants.  Equality of `Obj` models identity
  (address) equality of canonical handles.
* The identity-keyed hash map `constants_map_` is modelled as an
  association list with an update-or-append write, matching
  `constants_map_[addr] = index`.
* `size_t` arithmetic that is guarded by the builder's invariants is
  modelled with `Nat` (truncated subtraction coincides with the machine
  subtraction in every guarded use).
* `DCHECK`s are debug-only assertions; the functions model the release
  behaviour, and the checked preconditions appear as hypotheses of the
  theorems (and as side conditions of the reachability relation).
* `UNREACHABLE()` branches are modelled by `Option` results (`none`).
* The per-tier capacities `k8BitCapacity`, `k16BitCapacity`,
  `k32BitCapacity` are declared in the header, which is not part of the
  sources; the spec designates exact capacities as a tuning parameter, so
  the constructor takes them as parameters `cap0`, `cap1`, `cap2`.
-/

/-- Constant values handled by the builder: opaque heap references compared
by identity.  `theHole` is the distinguished sentinel value
(`the_hole_value`), distinguishable from every legitimate constant. -/
inductive Obj where
  | theHole : Obj
  | val : Nat → Obj
deriving DecidableEq

/-- Operand widths of bytecode operands (the `OperandSize` enum as used by
the builder). -/
inductive OperandSize where
  | kNone : OperandSize
  | kByte : OperandSize
  | kShort : OperandSize
  | kQuad : OperandSize
deriving DecidableEq

/-- One fixed-capacity operand-width tier
(`ConstantArrayBuilder::ConstantArraySlice`). -/
structure ConstantArraySlice where
  start_index : Nat
  capacity : Nat
  reserved : Nat
  operand_size : OperandSize
  constants : List Obj
deriving DecidableEq

/-- Number of committed constants in the slice (header accessor `size()`,
i.e. `constants_.size()`). -/
def ConstantArraySlice.size (s : ConstantArraySlice) : Nat :=
  s.constants.length

/-- Modelled from the spec: the header-only accessor `available()`;
`available = capacity - values.length - reserved`. -/
def ConstantArraySlice.available (s : ConstantArraySlice) : Nat :=
  s.capacity - s.constants.length - s.reserved

/-- Modelled from the spec: the header-only accessor `max_index()`; the tier
owns the global indices `[start_index, start_index + capacity)`, of which
`max_index = start_index + capacity - 1` is the largest. -/
def ConstantArraySlice.max_index (s : ConstantArraySlice) : Nat :=
  s.start_index + s.capacity - 1

/-- `ConstantArraySlice::Reserve` (cc lines 24-28): increments the
reservation counter.  The debug check `available() > 0` is a caller
precondition. -/
def ConstantArraySlice.Reserve (s : ConstantArraySlice) : ConstantArraySlice :=
  { s with reserved := s.reserved + 1 }

/-- `ConstantArraySlice::Unreserve` (cc lines 30-33): decrements the
reservation counter.  The debug check `reserved > 0` is a caller
precondition. -/
def ConstantArraySlice.Unreserve (s : ConstantArraySlice) : ConstantArraySlice :=
  { s with reserved := s.reserved - 1 }

/-- `ConstantArraySlice::Allocate` (cc lines 35-42): appends the object and
returns `index + start_index` where `index` is the pre-append committed
count. -/
def ConstantArraySlice.Allocate (s : ConstantArraySlice) (object : Obj) :
    Nat × ConstantArraySlice :=
  (s.constants.length + s.start_index, { s with constants := s.constants ++ [object] })

/-- `ConstantArraySlice::At` (cc lines 44-49): reads `constants_[index -
start_index]`; the debug checks keep `index` inside the committed range, so
the default value of `getD` is never read in guarded uses. -/
def ConstantArraySlice.At (s : ConstantArraySlice) (index : Nat) : Obj :=
  s.constants.getD (index - s.start_index) Obj.theHole

/-- `ConstantArraySlice::InsertAt` (cc lines 51-56): overwrites
`constants_[index - start_index]`. -/
def ConstantArraySlice.InsertAt (s : ConstantArraySlice) (index : Nat)
    (object : Obj) : ConstantArraySlice :=
  { s with constants := s.constants.set (index - s.start_index) object }

/-- Loop of `ConstantArraySlice::AllElementsAreUnique` (cc lines 58-65):
walk the committed constants, tracking the set of elements seen so far, and
fail on the first repeated identity. -/
def allUniqueLoop : List Obj → List Obj → Bool
  | [], _ => true
  | c :: rest, seen => if c ∈ seen then false else allUniqueLoop rest (c :: seen)

/-- `ConstantArraySlice::AllElementsAreUnique` (cc lines 58-65). -/
def ConstantArraySlice.AllElementsAreUnique (s : ConstantArraySlice) : Bool :=
  allUniqueLoop s.constants []

/-- Identifier of one of the three slices of the builder (the index into
`idx_slice_`). -/
inductive SliceId where
  | s0 : SliceId
  | s1 : SliceId
  | s2 : SliceId
deriving DecidableEq

/-- Position of the slice in `idx_slice_` (narrow = 0 to wide = 2). -/
def SliceId.toNat : SliceId → Nat
  | .s0 => 0
  | .s1 => 1
  | .s2 => 2

/-- The builder: dedup map plus the three tiers `idx_slice_[0..2]`
(narrow to wide). -/
structure ConstantArrayBuilder where
  constants_map : List (Obj × Nat)
  slice0 : ConstantArraySlice
  slice1 : ConstantArraySlice
  slice2 : ConstantArraySlice
deriving DecidableEq

/-- Read `idx_slice_[t]`. -/
def ConstantArrayBuilder.getSlice (b : ConstantArrayBuilder) : SliceId → ConstantArraySlice
  | .s0 => b.slice0
  | .s1 => b.slice1
  | .s2 => b.slice2

/-- Replace `idx_slice_[t]` (models mutation through the slice pointer). -/
def ConstantArrayBuilder.setSlice (b : ConstantArrayBuilder) : SliceId → ConstantArraySlice → ConstantArrayBuilder
  | .s0, s => { b with slice0 := s }
  | .s1, s => { b with slice1 := s }
  | .s2, s => { b with slice2 := s }

/-- Constructor (cc lines 73-81): three tiers at start offsets `0`, `cap0`,
`cap0 + cap1`, with operand sizes byte / short / quad.  The concrete
capacities live in the header (outside the sources) and are treated by the
spec as tuning parameters, hence the parameters. -/
def ConstantArrayBuilder.new (cap0 cap1 cap2 : Nat) : ConstantArrayBuilder :=
  { constants_map := []
    slice0 := { start_index := 0, capacity := cap0, reserved := 0,
                operand_size := .kByte, constants := [] }
    slice1 := { start_index := cap0, capacity := cap1, reserved := 0,
                operand_size := .kShort, constants := [] }
    slice2 := { start_index := cap0 + cap1, capacity := cap2, reserved := 0,
                operand_size := .kQuad, constants := [] } }

/-- `ConstantArrayBuilder::size` (cc lines 83-92): scan the tiers from
widest to narrowest; the first tier with a nonzero committed count yields
`start_index + size`; if all are empty the loop falls through to
`idx_slice_[0]->size()`. -/
def ConstantArrayBuilder.size (b : ConstantArrayBuilder) : Nat :=
  if 0 < b.slice2.size then b.slice2.start_index + b.slice2.size
  else if 0 < b.slice1.size then b.slice1.start_index + b.slice1.size
  else if 0 < b.slice0.size then b.slice0.start_index + b.slice0.size
  else b.slice0.size

/-- `ConstantArrayBuilder::IndexToSlice` (cc lines 94-103): the first slice
with `index <= max_index` owns the index; `none` models the `UNREACHABLE()`
branch. -/
def ConstantArrayBuilder.IndexToSliceId (b : ConstantArrayBuilder) (index : Nat) :
    Option SliceId :=
  if index ≤ b.slice0.max_index then some .s0
  else if index ≤ b.slice1.max_index then some .s1
  else if index ≤ b.slice2.max_index then some .s2
  else none

/-- `ConstantArrayBuilder::At` (cc lines 105-113): resolve the owning slice;
inside its committed range return the stored value, otherwise (an
allocated-but-unfilled slot) return the hole sentinel.  `none` models the
fatal `UNREACHABLE()` of `IndexToSlice`. -/
def ConstantArrayBuilder.At (b : ConstantArrayBuilder) (index : Nat) : Option Obj :=
  match b.IndexToSliceId index with
  | some t =>
      let s := b.getSlice t
      if index < s.start_index + s.size then some (s.At index) else some Obj.theHole
  | none => none

/-- Loop body of `ConstantArrayBuilder::ToFixedArray` (cc lines 115-143)
over the slice array: stop once the output is full; otherwise copy the
slice's committed values, then pad with holes, bounded by the remaining
output length and by the slice's uncommitted capacity.  The boolean collects
the per-slice `AllElementsAreUnique` debug checks that the loop performs
before copying. -/
def toFixedArrayLoop (len : Nat) : List ConstantArraySlice → List Obj → List Obj × Bool
  | [], acc => (acc, true)
  | s :: rest, acc =>
      if acc.length = len then (acc, true)
      else
        let acc1 := acc ++ s.constants
        let padding := min (len - acc1.length) (s.capacity - s.size)
        let r := toFixedArrayLoop len rest (acc1 ++ List.replicate padding Obj.theHole)
        (r.1, s.AllElementsAreUnique && r.2)

/-- `ConstantArrayBuilder::ToFixedArray` (cc lines 115-143): the output
sequence (the contents of the fixed array). -/
def ConstantArrayBuilder.ToFixedArray (b : ConstantArrayBuilder) : List Obj :=
  (toFixedArrayLoop b.size [b.slice0, b.slice1, b.slice2] []).1

/-- The conjunction of the `AllElementsAreUnique` debug checks that
`ToFixedArray` performs; `false` means a debug build dies on the
non-canonical-duplicate assertion (cc line 128). -/
def ConstantArrayBuilder.ToFixedArrayChecks (b : ConstantArrayBuilder) : Bool :=
  (toFixedArrayLoop b.size [b.slice0, b.slice1, b.slice2] []).2

/-- Lookup in the identity-keyed dedup map (`constants_map_.find`). -/
def lookupMap (m : List (Obj × Nat)) (k : Obj) : Option Nat :=
  match m with
  | [] => none
  | (k', i) :: rest => if k' = k then some i else lookupMap rest k

/-- Write-through to the dedup map (`constants_map_[addr] = index`):
overwrite the existing binding, or append a fresh one. -/
def mapUpdate (m : List (Obj × Nat)) (k : Obj) (i : Nat) : List (Obj × Nat) :=
  match m with
  | [] => [(k, i)]
  | (k', i') :: rest =>
      if k' = k then (k, i) :: rest else (k', i') :: mapUpdate rest k i

/-- Loop of `ConstantArrayBuilder::AllocateIndex` (cc lines 158-167): the
first slice, narrowest to widest, with `available() > 0`; `none` models the
`UNREACHABLE()` branch. -/
def ConstantArrayBuilder.firstAvailable (b : ConstantArrayBuilder) : Option SliceId :=
  if 0 < b.slice0.available then some .s0
  else if 0 < b.slice1.available then some .s1
  else if 0 < b.slice2.available then some .s2
  else none

/-- `ConstantArrayBuilder::AllocateIndex` (cc lines 158-167): allocate in
the first slice with available capacity. -/
def ConstantArrayBuilder.AllocateIndex (b : ConstantArrayBuilder) (object : Obj) :
    Option (Nat × ConstantArrayBuilder) :=
  match b.firstAvailable with
  | some t =>
      let r := (b.getSlice t).Allocate object
      some (r.1, b.setSlice t r.2)
  | none => none

/-- `ConstantArrayBuilder::AllocateEntry(Handle<Object>)` (cc lines
151-156): allocate an index and register it in the dedup map. -/
def ConstantArrayBuilder.AllocateEntry (b : ConstantArrayBuilder) (object : Obj) :
    Option (Nat × ConstantArrayBuilder) :=
  match b.AllocateIndex object with
  | some (i, b') =>
      some (i, { b' with constants_map := mapUpdate b'.constants_map object i })
  | none => none

/-- `ConstantArrayBuilder::Insert` (cc lines 145-149): return the registered
index if the identity is in the dedup map, otherwise allocate and register a
fresh entry. -/
def ConstantArrayBuilder.Insert (b : ConstantArrayBuilder) (object : Obj) :
    Option (Nat × ConstantArrayBuilder) :=
  match lookupMap b.constants_map object with
  | some i => some (i, b)
  | none => b.AllocateEntry object

/-- `ConstantArrayBuilder::OperandSizeToSlice` (cc lines 169-188); `none`
models the `UNREACHABLE()` branch for `kNone`. -/
def OperandSizeToSliceId : OperandSize → Option SliceId
  | .kNone => none
  | .kByte => some .s0
  | .kShort => some .s1
  | .kQuad => some .s2

/-- The nullary overload `ConstantArrayBuilder::AllocateEntry()` (cc lines
190-192): allocate a slot filled with the hole sentinel without touching the
dedup map (forward reference). -/
def ConstantArrayBuilder.AllocateEntryNoValue (b : ConstantArrayBuilder) :
    Option (Nat × ConstantArrayBuilder) :=
  b.AllocateIndex Obj.theHole

/-- `ConstantArrayBuilder::InsertAllocatedEntry` (cc lines 194-199):
overwrite the slot through the owning slice; the debug check that the slot
currently holds the hole is a caller precondition.  Does not touch the
dedup map. -/
def ConstantArrayBuilder.InsertAllocatedEntry (b : ConstantArrayBuilder)
    (index : Nat) (object : Obj) : Option ConstantArrayBuilder :=
  match b.IndexToSliceId index with
  | some t => some (b.setSlice t ((b.getSlice t).InsertAt index object))
  | none => none

/-- `ConstantArrayBuilder::CreateReservedEntry` (cc lines 201-210): reserve
a slot in the first slice with available capacity and return its operand
size. -/
def ConstantArrayBuilder.CreateReservedEntry (b : ConstantArrayBuilder) :
    Option (OperandSize × ConstantArrayBuilder) :=
  match b.firstAvailable with
  | some t => some ((b.getSlice t).operand_size, b.setSlice t (b.getSlice t).Reserve)
  | none => none

/-- `ConstantArrayBuilder::DiscardReservedEntry` (cc lines 233-235): release
one reservation in the tier of the given operand size. -/
def ConstantArrayBuilder.DiscardReservedEntry (b : ConstantArrayBuilder)
    (operand_size : OperandSize) : Option ConstantArrayBuilder :=
  match OperandSizeToSliceId operand_size with
  | some t => some (b.setSlice t (b.getSlice t).Unreserve)
  | none => none

/-- `ConstantArrayBuilder::CommitReservedEntry` (cc lines 212-231): release
the reservation; if the value is unregistered, allocate and register
normally; if registered at an index inside the reserved tier's range, reuse
it; if registered at an index above the tier's `max_index`, allocate a
duplicate copy directly in the reserved tier and re-point the dedup map. -/
def ConstantArrayBuilder.CommitReservedEntry (b : ConstantArrayBuilder)
    (operand_size : OperandSize) (object : Obj) : Option (Nat × ConstantArrayBuilder) :=
  match b.DiscardReservedEntry operand_size with
  | none => none
  | some b1 =>
      match lookupMap b1.constants_map object with
      | none => b1.AllocateEntry object
      | some index =>
          match OperandSizeToSliceId operand_size with
          | none => none
          | some t =>
              let s := b1.getSlice t
              if s.max_index < index then
                let r := s.Allocate object
                some (r.1, { b1.setSlice t r.2 with
                             constants_map := mapUpdate b1.constants_map object r.1 })
              else some (index, b1)

/-- Sequential `Insert` of a list of values (used for the spec's scenario
properties); fails if any insertion hits the unreachable exhausted case. -/
def insertAll (b : ConstantArrayBuilder) : List Obj → Option ConstantArrayBuilder
  | [] => some b
  | v :: vs =>
      match b.Insert v with
      | some (_, b') => insertAll b' vs
      | none => none

/-- The slot `i` is committed in its tier and currently holds the hole
sentinel: the state of a forward-reference slot between its allocation by
the no-value `AllocateEntry()` and its fill by `InsertAllocatedEntry`. -/
def HoleAt (b : ConstantArrayBuilder) (i : Nat) : Prop :=
  ∃ t : SliceId, b.IndexToSliceId i = some t ∧
    (b.getSlice t).start_index ≤ i ∧
    i < (b.getSlice t).start_index + (b.getSlice t).constants.length ∧
    (b.getSlice t).constants.getD (i - (b.getSlice t).start_index) Obj.theHole =
      Obj.theHole

/-- Spec-side definition of the logical size, following the spec's words
(for the refinement comparison of claim C5): scan tiers from widest to
narrowest; the first tier with nonzero committed size determines the size as
`start_index + committed_size`; if all tiers are empty, the size is the
narrowest tier's committed size (zero). -/
def sizeSpec (b : ConstantArrayBuilder) : Nat :=
  if 0 < b.slice2.size then b.slice2.start_index + b.slice2.size
  else if 0 < b.slice1.size then b.slice1.start_index + b.slice1.size
  else if 0 < b.slice0.size then b.slice0.start_index + b.slice0.size
  else b.slice0.size

/-- The per-slice capacity invariant of the spec:
`reserved + values.length <= capacity`. -/
def SliceInv (s : ConstantArraySlice) : Prop :=
  s.reserved + s.constants.length ≤ s.capacity

/-- Structural facts fixed by the constructor: the three tiers cover
disjoint contiguous increasing ranges and have nonzero capacity. -/
def Structured (b : ConstantArrayBuilder) : Prop :=
  b.slice0.start_index = 0 ∧
  b.slice1.start_index = b.slice0.capacity ∧
  b.slice2.start_index = b.slice0.capacity + b.slice1.capacity ∧
  0 < b.slice0.capacity ∧ 0 < b.slice1.capacity ∧ 0 < b.slice2.capacity

/-- Builder invariant: structure plus the capacity invariant of every
slice. -/
def BuilderInv (b : ConstantArrayBuilder) : Prop :=
  Structured b ∧ SliceInv b.slice0 ∧ SliceInv b.slice1 ∧ SliceInv b.slice2

/-- States reachable from a fresh builder through the public operations,
used under their documented (debug-checked) preconditions. -/
inductive Reachable : ConstantArrayBuilder → Prop where
  | init (cap0 cap1 cap2 : Nat) : 0 < cap0 → 0 < cap1 → 0 < cap2 →
      Reachable (ConstantArrayBuilder.new cap0 cap1 cap2)
  | insert {b : ConstantArrayBuilder} {v : Obj} {i : Nat} {b' : ConstantArrayBuilder} :
      Reachable b → b.Insert v = some (i, b') → Reachable b'
  | allocateHole {b : ConstantArrayBuilder} {i : Nat} {b' : ConstantArrayBuilder} :
      Reachable b → b.AllocateEntryNoValue = some (i, b') → Reachable b'
  | insertAllocated {b : ConstantArrayBuilder} {i : Nat} {v : Obj} {b' : ConstantArrayBuilder} :
      Reachable b → b.At i = some Obj.theHole →
      b.InsertAllocatedEntry i v = some b' → Reachable b'
  | createReserved {b : ConstantArrayBuilder} {w : OperandSize} {b' : ConstantArrayBuilder} :
      Reachable b → b.CreateReservedEntry = some (w, b') → Reachable b'
  | commitReserved {b : ConstantArrayBuilder} {w : OperandSize} {v : Obj} {i : Nat}
      {b' : ConstantArrayBuilder} {t : SliceId} :
      Reachable b → OperandSizeToSliceId w = some t → 0 < (b.getSlice t).reserved →
      b.CommitReservedEntry w v = some (i, b') → Reachable b'
  | discardReserved {b : ConstantArrayBuilder} {w : OperandSize} {b' : ConstantArrayBuilder}
      {t : SliceId} :
      Reachable b → OperandSizeToSliceId w = some t → 0 < (b.getSlice t).reserved →
      b.DiscardReservedEntry w = some b' → Reachable b'

/-- One public operation that is not `InsertAllocatedEntry` at the watched
index `i` (used to state that a hole persists until it is filled). -/
inductive OtherOp (i : Nat) : ConstantArrayBuilder → ConstantArrayBuilder → Prop where
  | insert {b : ConstantArrayBuilder} {v : Obj} {j : Nat} {b' : ConstantArrayBuilder} :
      b.Insert v = some (j, b') → OtherOp i b b'
  | allocateHole {b : ConstantArrayBuilder} {j : Nat} {b' : ConstantArrayBuilder} :
      b.AllocateEntryNoValue = some (j, b') → OtherOp i b b'
  | insertAllocated {b : ConstantArrayBuilder} {j : Nat} {v : Obj} {b' : ConstantArrayBuilder} :
      j ≠ i → b.InsertAllocatedEntry j v = some b' → OtherOp i b b'
  | createReserved {b : ConstantArrayBuilder} {w : OperandSize} {b' : ConstantArrayBuilder} :
      b.CreateReservedEntry = some (w, b') → OtherOp i b b'
  | commitReserved {b : ConstantArrayBuilder} {w : OperandSize} {v : Obj} {j : Nat}
      {b' : ConstantArrayBuilder} :
      b.CommitReservedEntry w v = some (j, b') → OtherOp i b b'
  | discardReserved {b : ConstantArrayBuilder} {w : OperandSize} {b' : ConstantArrayBuilder} :
      b.DiscardReservedEntry w = some b' → OtherOp i b b'

/-- A concrete builder state with tier capacities 1/1/1 whose narrowest tier
is full (value 1 at index 0). -/
def fullTier0 : ConstantArrayBuilder :=
  { constants_map := [(Obj.val 1, 0)]
    slice0 := { start_index := 0, capacity := 1, reserved := 0,
                operand_size := .kByte, constants := [Obj.val 1] }
    slice1 := { start_index := 1, capacity := 1, reserved := 0,
                operand_size := .kShort, constants := [] }
    slice2 := { start_index := 2, capacity := 1, reserved := 0,
                operand_size := .kQuad, constants := [] } }

/-- A concrete builder state with one outstanding tier-0 reservation and the
value 9 registered in the dedup map at an index above tier 0's range. -/
def wideRegistered : ConstantArrayBuilder :=
  { constants_map := [(Obj.val 9, 300)]
    slice0 := { start_index := 0, capacity := 4, reserved := 1,
                operand_size := .kByte, constants := [] }
    slice1 := { start_index := 4, capacity := 8, reserved := 0,
                operand_size := .kShort, constants := [] }
    slice2 := { start_index := 12, capacity := 16, reserved := 0,
                operand_size := .kQuad, constants := [] } }

/-- The builder state reached from a fresh 4/4/4 builder by two no-value
`AllocateEntry()` calls, neither of which is ever filled: tier 0 holds two
committed copies of the hole sentinel. -/
def twoHoles : ConstantArrayBuilder :=
  { constants_map := []
    slice0 := { start_index := 0, capacity := 4, reserved := 0,
                operand_size := .kByte, constants := [Obj.theHole, Obj.theHole] }
    slice1 := { start_index := 4, capacity := 4, reserved := 0,
                operand_size := .kShort, constants := [] }
    slice2 := { start_index := 8, capacity := 4, reserved := 0,
                operand_size := .kQuad, constants := [] } }

/-- State after `AllocateEntry()` on a fresh 4/4/4 builder: slot 0 holds the
hole, nothing registered. -/
def c6b1 : ConstantArrayBuilder :=
  { constants_map := []
    slice0 := { start_index := 0, capacity := 4, reserved := 0,
                operand_size := .kByte, constants := [Obj.theHole] }
    slice1 := { start_index := 4, capacity := 4, reserved := 0,
                operand_size := .kShort, constants := [] }
    slice2 := { start_index := 8, capacity := 4, reserved := 0,
                operand_size := .kQuad, constants := [] } }

/-- `c6b1` after `Insert (val 5)`: slot 1 filled and registered, slot 0
still an unfilled hole. -/
def c6b2 : ConstantArrayBuilder :=
  { constants_map := [(Obj.val 5, 1)]
    slice0 := { start_index := 0, capacity := 4, reserved := 0,
                operand_size := .kByte, constants := [Obj.theHole, Obj.val 5] }
    slice1 := { start_index := 4, capacity := 4, reserved := 0,
                operand_size := .kShort, constants := [] }
    slice2 := { start_index := 8, capacity := 4, reserved := 0,
                operand_size := .kQuad, constants := [] } }

/-- `c6b2` after `InsertAllocatedEntry 0 (val 9)`: the forward reference is
filled; the dedup map is untouched. -/
def c6b3 : ConstantArrayBuilder :=
  { constants_map := [(Obj.val 5, 1)]
    slice0 := { start_index := 0, capacity := 4, reserved := 0,
                operand_size := .kByte, constants := [Obj.val 9, Obj.val 5] }
    slice1 := { start_index := 4, capacity := 4, reserved := 0,
                operand_size := .kShort, constants := [] }
    slice2 := { start_index := 8, capacity := 4, reserved := 0,
                operand_size := .kQuad, constants := [] } }

/-- The state of a 4/8/16 builder after inserting the five distinct values
1..5 (the spec's overflow scenario: four land in tier 0, the fifth at the
start of tier 1). -/
def c5scn : ConstantArrayBuilder :=
  { constants_map := [(Obj.val 1, 0), (Obj.val 2, 1), (Obj.val 3, 2),
                      (Obj.val 4, 3), (Obj.val 5, 4)]
    slice0 := { start_index := 0, capacity := 4, reserved := 0,
                operand_size := .kByte,
                constants := [Obj.val 1, Obj.val 2, Obj.val 3, Obj.val 4] }
    slice1 := { start_index := 4, capacity := 8, reserved := 0,
                operand_size := .kShort, constants := [Obj.val 5] }
    slice2 := { start_index := 12, capacity := 16, reserved := 0,
                operand_size := .kQuad, constants := [] } }

/-- State after `Insert (val 7)` on a fresh 4/4/4 builder: value 7 is
registered at index 0. -/
def c3b1 : ConstantArrayBuilder :=
  { constants_map := [(Obj.val 7, 0)]
    slice0 := { start_index := 0, capacity := 4, reserved := 0,
                operand_size := .kByte, constants := [Obj.val 7] }
    slice1 := { start_index := 4, capacity := 4, reserved := 0,
                operand_size := .kShort, constants := [] }
    slice2 := { start_index := 8, capacity := 4, reserved := 0,
                operand_size := .kQuad, constants := [] } }

/-- `c3b1` after `Insert (val 8)`: a different value registered at index 1;
value 7's entry is untouched. -/
def c3b2 : ConstantArrayBuilder :=
  { constants_map := [(Obj.val 7, 0), (Obj.val 8, 1)]
    slice0 := { start_index := 0, capacity := 4, reserved := 0,
                operand_size := .kByte, constants := [Obj.val 7, Obj.val 8] }
    slice1 := { start_index := 4, capacity := 4, reserved := 0,
                operand_size := .kShort, constants := [] }
    slice2 := { start_index := 8, capacity := 4, reserved := 0,
                operand_size := .kQuad, constants := [] } }

/-- `c3b2` after a no-value `AllocateEntry()`: a forward-reference hole at
index 2; the dedup map is untouched. -/
def c3b3 : ConstantArrayBuilder :=
  { constants_map := [(Obj.val 7, 0), (Obj.val 8, 1)]
    slice0 := { start_index := 0, capacity := 4, reserved := 0,
                operand_size := .kByte,
                constants := [Obj.val 7, Obj.val 8, Obj.theHole] }
    slice1 := { start_index := 4, capacity := 4, reserved := 0,
                operand_size := .kShort, constants := [] }
    slice2 := { start_index := 8, capacity := 4, reserved := 0,
                operand_size := .kQuad, constants := [] } }

/-- One public operation that does not re-point `v`'s identity in the dedup
map: any `Insert`, either `AllocateEntry` form, `InsertAllocatedEntry`,
`CreateReservedEntry`, `DiscardReservedEntry`, a `CommitReservedEntry` of a
different value, or a `CommitReservedEntry` of `v` itself that leaves `v`'s
map entry unchanged (the reuse path).  The sole operation excluded is the
commit that re-points `v` (the wide-index duplicate path of cc 222-228). -/
inductive KeepsIdentity (v : Obj) : ConstantArrayBuilder → ConstantArrayBuilder → Prop where
  | insert {b : ConstantArrayBuilder} {u : Obj} {j : Nat} {b' : ConstantArrayBuilder} :
      b.Insert u = some (j, b') → KeepsIdentity v b b'
  | allocateHole {b : ConstantArrayBuilder} {j : Nat} {b' : ConstantArrayBuilder} :
      b.AllocateEntryNoValue = some (j, b') → KeepsIdentity v b b'
  | insertAllocated {b : ConstantArrayBuilder} {j : Nat} {u : Obj} {b' : ConstantArrayBuilder} :
      b.InsertAllocatedEntry j u = some b' → KeepsIdentity v b b'
  | createReserved {b : ConstantArrayBuilder} {w : OperandSize} {b' : ConstantArrayBuilder} :
      b.CreateReservedEntry = some (w, b') → KeepsIdentity v b b'
  | commitReservedOther {b : ConstantArrayBuilder} {w : OperandSize} {u : Obj} {j : Nat}
      {b' : ConstantArrayBuilder} :
      u ≠ v → b.CommitReservedEntry w u = some (j, b') → KeepsIdentity v b b'
  | commitReservedReuse {b : ConstantArrayBuilder} {w : OperandSize} {j : Nat}
      {b' : ConstantArrayBuilder} :
      b.CommitReservedEntry w v = some (j, b') →
      lookupMap b'.constants_map v = lookupMap b.constants_map v →
      KeepsIdentity v b b'
  | discardReserved {b : ConstantArrayBuilder} {w : OperandSize} {b' : ConstantArrayBuilder} :
      b.DiscardReservedEntry w = some b' → KeepsIdentity v b b'

/-! Basic lemmas about slice access and the dedup map. -/

@[simp]
theorem getSlice_setSlice_same (b : ConstantArrayBuilder) (u : SliceId)
    (s : ConstantArraySlice) : (b.setSlice u s).getSlice u = s := by
  cases u <;> rfl

theorem getSlice_setSlice_ne (b : ConstantArrayBuilder) {u t : SliceId}
    (s : ConstantArraySlice) (h : u ≠ t) :
    (b.setSlice u s).getSlice t = b.getSlice t := by
  cases u <;> cases t <;> first | rfl | exact absurd rfl h

@[simp]
theorem constants_map_setSlice (b : ConstantArrayBuilder) (u : SliceId)
    (s : ConstantArraySlice) : (b.setSlice u s).constants_map = b.constants_map := by
  cases u <;> rfl

@[simp]
theorem lookupMap_mapUpdate_self (m : List (Obj × Nat)) (k : Obj) (i : Nat) :
    lookupMap (mapUpdate m k i) k = some i := by
  induction m with
  | nil => simp [mapUpdate, lookupMap]
  | cons p rest ih =>
      obtain ⟨k', i'⟩ := p
      by_cases h : k' = k
      · simp [mapUpdate, lookupMap, h]
      · simp [mapUpdate, lookupMap, h, ih]

theorem lookupMap_mapUpdate_ne (m : List (Obj × Nat)) {k k' : Obj} (i : Nat)
    (h : k' ≠ k) : lookupMap (mapUpdate m k i) k' = lookupMap m k' := by
  have h' : k ≠ k' := Ne.symm h
  induction m with
  | nil => simp [mapUpdate, lookupMap, h']
  | cons p rest ih =>
      obtain ⟨k0, i0⟩ := p
      by_cases h0 : k0 = k
      · subst h0
        simp [mapUpdate, lookupMap, h']
      · simp [mapUpdate, lookupMap, h0, ih]

@[simp]
theorem getSlice_mapOnly (b : ConstantArrayBuilder) (m : List (Obj × Nat))
    (u : SliceId) :
    ConstantArrayBuilder.getSlice { b with constants_map := m } u = b.getSlice u := by
  cases u <;> rfl

@[simp]
theorem Unreserve_start_index (s : ConstantArraySlice) :
    s.Unreserve.start_index = s.start_index := rfl

@[simp]
theorem Unreserve_capacity (s : ConstantArraySlice) :
    s.Unreserve.capacity = s.capacity := rfl

@[simp]
theorem Unreserve_constants (s : ConstantArraySlice) :
    s.Unreserve.constants = s.constants := rfl

@[simp]
theorem Unreserve_max_index (s : ConstantArraySlice) :
    s.Unreserve.max_index = s.max_index := rfl

theorem firstAvailable_spec (b : ConstantArrayBuilder) (t : SliceId)
    (h : b.firstAvailable = some t) :
    0 < (b.getSlice t).available ∧
      ∀ u : SliceId, u.toNat < t.toNat → (b.getSlice u).available = 0 := by
  unfold ConstantArrayBuilder.firstAvailable at h
  split_ifs at h with h0 h1 h2 <;>
    simp only [Option.some.injEq] at h <;> subst h
  · exact ⟨h0, by intro u hu; cases u <;> simp [SliceId.toNat] at hu⟩
  · refine ⟨h1, ?_⟩
    intro u hu
    cases u <;> simp [SliceId.toNat] at hu ⊢
    · exact Nat.eq_zero_of_not_pos h0
  · refine ⟨h2, ?_⟩
    intro u hu
    cases u <;> simp [SliceId.toNat] at hu ⊢
    · exact Nat.eq_zero_of_not_pos h0
    · exact Nat.eq_zero_of_not_pos h1

theorem AllocateIndex_spec (b : ConstantArrayBuilder) (v : Obj) (i : Nat)
    (b' : ConstantArrayBuilder) (h : b.AllocateIndex v = some (i, b')) :
    ∃ t : SliceId, b.firstAvailable = some t ∧
      i = (b.getSlice t).constants.length + (b.getSlice t).start_index ∧
      b' = b.setSlice t ((b.getSlice t).Allocate v).2 := by
  unfold ConstantArrayBuilder.AllocateIndex at h
  cases hfa : b.firstAvailable with
  | none => rw [hfa] at h; exact absurd h (by simp)
  | some t =>
      rw [hfa] at h
      simp only [Option.some.injEq, Prod.mk.injEq] at h
      exact ⟨t, rfl, h.1.symm, h.2.symm⟩

/-- C4: every new allocation (`Insert` of an unregistered identity goes
through `AllocateEntry`, and both `AllocateEntry` forms go through
`AllocateIndex`) is placed in the narrowest tier with nonzero available
count; every narrower tier has zero available slots at that moment, and the
wider tiers are untouched. -/
theorem AllocateIndex_narrowest_available :
    (∀ (b : ConstantArrayBuilder) (v : Obj),
      lookupMap b.constants_map v = none → b.Insert v = b.AllocateEntry v) ∧
    (∀ b : ConstantArrayBuilder, b.AllocateEntryNoValue = b.AllocateIndex Obj.theHole) ∧
    (∀ (b : ConstantArrayBuilder) (v : Obj) (i : Nat) (b' : ConstantArrayBuilder),
      b.AllocateIndex v = some (i, b') →
      ∃ t : SliceId,
        0 < (b.getSlice t).available ∧
        (∀ u : SliceId, u.toNat < t.toNat → (b.getSlice u).available = 0) ∧
        i = (b.getSlice t).start_index + (b.getSlice t).size ∧
        b' = b.setSlice t ((b.getSlice t).Allocate v).2 ∧
        (∀ u : SliceId, u ≠ t → b'.getSlice u = b.getSlice u)) := by
  refine ⟨?_, fun _ => rfl, ?_⟩
  · intro b v hl
    unfold ConstantArrayBuilder.Insert
    rw [hl]
  · intro b v i b' h
    obtain ⟨t, hfa, hi, hb'⟩ := AllocateIndex_spec b v i b' h
    obtain ⟨hav, hnarrow⟩ := firstAvailable_spec b t hfa
    refine ⟨t, hav, hnarrow, ?_, hb', ?_⟩
    · rw [hi, Nat.add_comm]; rfl
    · intro u hu
      rw [hb']
      exact getSlice_setSlice_ne b _ (fun hh => hu hh.symm)

theorem AllocateIndex_narrowest_available_witness :
    ∃ t : SliceId,
      0 < (fullTier0.getSlice t).available ∧
      (∀ u : SliceId, u.toNat < t.toNat → (fullTier0.getSlice u).available = 0) ∧
      1 = (fullTier0.getSlice t).start_index + (fullTier0.getSlice t).size ∧
      ((fullTier0.AllocateIndex (Obj.val 2)).getD (0, fullTier0)).2 =
        fullTier0.setSlice t ((fullTier0.getSlice t).Allocate (Obj.val 2)).2 ∧
      (∀ u : SliceId, u ≠ t →
        (((fullTier0.AllocateIndex (Obj.val 2)).getD (0, fullTier0)).2).getSlice u =
          fullTier0.getSlice u) :=
  AllocateIndex_narrowest_available.2.2 fullTier0 (Obj.val 2) 1 _ rfl

/-- C1: if at `CommitReservedEntry w v` the dedup map registers `v` at an
index above the reserved tier's range (a wider tier), then the commit
allocates a second copy of `v` directly in the reserved tier `t` (its
constants gain `v`; all other tiers are untouched, so the old copy stays
where it was), returns the new index — which lies inside tier `t`'s range —
and re-points the dedup map there, so that every subsequent `Insert v`
returns the new narrower-tier index. -/
theorem CommitReservedEntry_wider_duplicates (b : ConstantArrayBuilder)
    (w : OperandSize) (t : SliceId) (v : Obj) (idx0 : Nat)
    (ht : OperandSizeToSliceId w = some t)
    (hinv : SliceInv (b.getSlice t))
    (hres : 0 < (b.getSlice t).reserved)
    (hl : lookupMap b.constants_map v = some idx0)
    (hwide : (b.getSlice t).max_index < idx0) :
    ∃ b' : ConstantArrayBuilder,
      b.CommitReservedEntry w v =
        some ((b.getSlice t).start_index + (b.getSlice t).size, b') ∧
      (b.getSlice t).start_index ≤ (b.getSlice t).start_index + (b.getSlice t).size ∧
      (b.getSlice t).start_index + (b.getSlice t).size ≤ (b.getSlice t).max_index ∧
      (b'.getSlice t).constants = (b.getSlice t).constants ++ [v] ∧
      (∀ u : SliceId, u ≠ t → b'.getSlice u = b.getSlice u) ∧
      lookupMap b'.constants_map v =
        some ((b.getSlice t).start_index + (b.getSlice t).size) ∧
      b'.Insert v = some ((b.getSlice t).start_index + (b.getSlice t).size, b') := by
  have hd : b.DiscardReservedEntry w =
      some (b.setSlice t (b.getSlice t).Unreserve) := by
    unfold ConstantArrayBuilder.DiscardReservedEntry
    rw [ht]
  set b1 := b.setSlice t (b.getSlice t).Unreserve with hb1
  have hmap1 : b1.constants_map = b.constants_map := by
    rw [hb1]; simp
  have hget1 : b1.getSlice t = (b.getSlice t).Unreserve := by
    rw [hb1]; simp
  have hl1 : lookupMap b1.constants_map v = some idx0 := by rw [hmap1]; exact hl
  have hmax1 : (b1.getSlice t).max_index < idx0 := by
    rw [hget1, Unreserve_max_index]; exact hwide
  have hcommit : b.CommitReservedEntry w v =
      some ((b1.getSlice t).constants.length + (b1.getSlice t).start_index,
        { b1.setSlice t ((b1.getSlice t).Allocate v).2 with
          constants_map := mapUpdate b1.constants_map v
            ((b1.getSlice t).constants.length + (b1.getSlice t).start_index) }) := by
    unfold ConstantArrayBuilder.CommitReservedEntry
    rw [hd]
    simp only [hl1, ht]
    rw [if_pos hmax1]
    rfl
  set i := (b1.getSlice t).constants.length + (b1.getSlice t).start_index with hi
  have hieq : i = (b.getSlice t).start_index + (b.getSlice t).size := by
    rw [hi, hget1]
    simp [ConstantArraySlice.size, Nat.add_comm]
  set b' : ConstantArrayBuilder :=
    { b1.setSlice t ((b1.getSlice t).Allocate v).2 with
      constants_map := mapUpdate b1.constants_map v i } with hb'
  have hlook' : lookupMap b'.constants_map v = some i := by
    rw [hb']
    simp [lookupMap_mapUpdate_self]
  refine ⟨b', by rw [hcommit, ← hieq], Nat.le_add_right _ _, ?_, ?_, ?_, ?_, ?_⟩
  · have h2 := hinv
    unfold SliceInv at h2
    show (b.getSlice t).start_index + (b.getSlice t).constants.length ≤
      (b.getSlice t).start_index + (b.getSlice t).capacity - 1
    omega
  · rw [hb']
    simp [ConstantArraySlice.Allocate, hget1]
  · intro u hu
    rw [hb']
    simp only [getSlice_mapOnly]
    rw [getSlice_setSlice_ne _ _ (fun hh => hu hh.symm), hb1,
      getSlice_setSlice_ne _ _ (fun hh => hu hh.symm)]
  · rw [← hieq]; exact hlook'
  · unfold ConstantArrayBuilder.Insert
    simp only [hlook']
    rw [hieq]

theorem CommitReservedEntry_wider_duplicates_witness :
    ∃ b' : ConstantArrayBuilder,
      wideRegistered.CommitReservedEntry OperandSize.kByte (Obj.val 9) =
        some ((wideRegistered.getSlice SliceId.s0).start_index +
          (wideRegistered.getSlice SliceId.s0).size, b') ∧
      (wideRegistered.getSlice SliceId.s0).start_index ≤
        (wideRegistered.getSlice SliceId.s0).start_index +
          (wideRegistered.getSlice SliceId.s0).size ∧
      (wideRegistered.getSlice SliceId.s0).start_index +
          (wideRegistered.getSlice SliceId.s0).size ≤
        (wideRegistered.getSlice SliceId.s0).max_index ∧
      (b'.getSlice SliceId.s0).constants =
        (wideRegistered.getSlice SliceId.s0).constants ++ [Obj.val 9] ∧
      (∀ u : SliceId, u ≠ SliceId.s0 →
        b'.getSlice u = wideRegistered.getSlice u) ∧
      lookupMap b'.constants_map (Obj.val 9) =
        some ((wideRegistered.getSlice SliceId.s0).start_index +
          (wideRegistered.getSlice SliceId.s0).size) ∧
      b'.Insert (Obj.val 9) =
        some ((wideRegistered.getSlice SliceId.s0).start_index +
          (wideRegistered.getSlice SliceId.s0).size, b') :=
  CommitReservedEntry_wider_duplicates wideRegistered OperandSize.kByte SliceId.s0
    (Obj.val 9) 300 rfl (by unfold SliceInv; decide) (by decide) rfl (by decide)

@[simp]
theorem getSlice_s0 (b : ConstantArrayBuilder) : b.getSlice .s0 = b.slice0 := rfl

@[simp]
theorem getSlice_s1 (b : ConstantArrayBuilder) : b.getSlice .s1 = b.slice1 := rfl

@[simp]
theorem getSlice_s2 (b : ConstantArrayBuilder) : b.getSlice .s2 = b.slice2 := rfl

/-- C7: under the constructor's tier layout, `At i` resolves `i` to the
unique tier whose index range contains it; below the tier's committed range
it returns the stored value, at or beyond it (but within the tier's range)
it returns the hole sentinel; and for `i` beyond the ranges of all three
tiers — impossible while `i` is below the total capacity — the fatal
`UNREACHABLE` branch (modelled as `none`) is taken. -/
theorem At_tier_resolution (b : ConstantArrayBuilder) (hS : Structured b) (i : Nat) :
    (i < b.slice0.capacity + b.slice1.capacity + b.slice2.capacity →
      ∃ t : SliceId, b.IndexToSliceId i = some t ∧
        (b.getSlice t).start_index ≤ i ∧ i ≤ (b.getSlice t).max_index ∧
        (∀ u : SliceId, u ≠ t →
          ¬((b.getSlice u).start_index ≤ i ∧ i ≤ (b.getSlice u).max_index)) ∧
        b.At i = (if i < (b.getSlice t).start_index + (b.getSlice t).size
                  then some ((b.getSlice t).constants.getD
                    (i - (b.getSlice t).start_index) Obj.theHole)
                  else some Obj.theHole)) ∧
    (b.slice0.capacity + b.slice1.capacity + b.slice2.capacity ≤ i →
      b.At i = none) := by
  obtain ⟨hs0, hs1, hs2, hc0, hc1, hc2⟩ := hS
  have hm0 : b.slice0.max_index = b.slice0.start_index + b.slice0.capacity - 1 := rfl
  have hm1 : b.slice1.max_index = b.slice1.start_index + b.slice1.capacity - 1 := rfl
  have hm2 : b.slice2.max_index = b.slice2.start_index + b.slice2.capacity - 1 := rfl
  constructor
  · intro hi
    by_cases h0 : i ≤ b.slice0.max_index
    · have hIdx : b.IndexToSliceId i = some .s0 := by
        unfold ConstantArrayBuilder.IndexToSliceId
        rw [if_pos h0]
      refine ⟨.s0, hIdx, by simp only [getSlice_s0]; omega, h0, ?_, ?_⟩
      · intro u hu
        cases u with
        | s0 => exact absurd rfl hu
        | s1 => simp only [getSlice_s1]; omega
        | s2 => simp only [getSlice_s2]; omega
      · unfold ConstantArrayBuilder.At
        rw [hIdx]
        rfl
    · by_cases h1 : i ≤ b.slice1.max_index
      · have hIdx : b.IndexToSliceId i = some .s1 := by
          unfold ConstantArrayBuilder.IndexToSliceId
          rw [if_neg h0, if_pos h1]
        refine ⟨.s1, hIdx, by simp only [getSlice_s1]; omega, h1, ?_, ?_⟩
        · intro u hu
          cases u with
          | s0 => simp only [getSlice_s0]; omega
          | s1 => exact absurd rfl hu
          | s2 => simp only [getSlice_s2]; omega
        · unfold ConstantArrayBuilder.At
          rw [hIdx]
          rfl
      · have h2 : i ≤ b.slice2.max_index := by omega
        have hIdx : b.IndexToSliceId i = some .s2 := by
          unfold ConstantArrayBuilder.IndexToSliceId
          rw [if_neg h0, if_neg h1, if_pos h2]
        refine ⟨.s2, hIdx, by simp only [getSlice_s2]; omega, h2, ?_, ?_⟩
        · intro u hu
          cases u with
          | s0 => simp only [getSlice_s0]; omega
          | s1 => simp only [getSlice_s1]; omega
          | s2 => exact absurd rfl hu
        · unfold ConstantArrayBuilder.At
          rw [hIdx]
          rfl
  · intro hi
    have hIdx : b.IndexToSliceId i = none := by
      unfold ConstantArrayBuilder.IndexToSliceId
      rw [if_neg (by omega), if_neg (by omega), if_neg (by omega)]
    unfold ConstantArrayBuilder.At
    rw [hIdx]

theorem At_tier_resolution_witness :
    (∃ t : SliceId, fullTier0.IndexToSliceId 1 = some t ∧
      (fullTier0.getSlice t).start_index ≤ 1 ∧ 1 ≤ (fullTier0.getSlice t).max_index ∧
      (∀ u : SliceId, u ≠ t →
        ¬((fullTier0.getSlice u).start_index ≤ 1 ∧
          1 ≤ (fullTier0.getSlice u).max_index)) ∧
      fullTier0.At 1 = (if 1 < (fullTier0.getSlice t).start_index + (fullTier0.getSlice t).size
                then some ((fullTier0.getSlice t).constants.getD
                  (1 - (fullTier0.getSlice t).start_index) Obj.theHole)
                else some Obj.theHole)) ∧
    fullTier0.At 5 = none :=
  ⟨(At_tier_resolution fullTier0 (by unfold Structured; decide) 1).1 (by decide),
   (At_tier_resolution fullTier0 (by unfold Structured; decide) 5).2 (by decide)⟩

theorem indexToSliceId_mem (b : ConstantArrayBuilder) (hS : Structured b)
    {i : Nat} {t : SliceId} (h : b.IndexToSliceId i = some t) :
    (b.getSlice t).start_index ≤ i ∧ i < (b.getSlice t).start_index + (b.getSlice t).capacity := by
  obtain ⟨hs0, hs1, hs2, hc0, hc1, hc2⟩ := hS
  have hm0 : b.slice0.max_index = b.slice0.start_index + b.slice0.capacity - 1 := rfl
  have hm1 : b.slice1.max_index = b.slice1.start_index + b.slice1.capacity - 1 := rfl
  have hm2 : b.slice2.max_index = b.slice2.start_index + b.slice2.capacity - 1 := rfl
  unfold ConstantArrayBuilder.IndexToSliceId at h
  split_ifs at h with h0 h1 h2 <;>
    simp only [Option.some.injEq] at h <;> subst h <;>
    simp only [getSlice_s0, getSlice_s1, getSlice_s2] <;> omega

@[simp]
theorem InsertAt_start_index (s : ConstantArraySlice) (i : Nat) (v : Obj) :
    (s.InsertAt i v).start_index = s.start_index := rfl

@[simp]
theorem InsertAt_capacity (s : ConstantArraySlice) (i : Nat) (v : Obj) :
    (s.InsertAt i v).capacity = s.capacity := rfl

@[simp]
theorem InsertAt_length (s : ConstantArraySlice) (i : Nat) (v : Obj) :
    (s.InsertAt i v).constants.length = s.constants.length := by
  unfold ConstantArraySlice.InsertAt
  simp

/-- C8: `InsertAllocatedEntry i v` overwrites the sentinel at committed slot
`i` but leaves the dedup map completely unchanged; hence if `v` was never
registered (`lookupMap` misses), a subsequent `Insert v` does not return
`i` — it allocates and returns a fresh index. -/
theorem InsertAllocatedEntry_bypasses_dedup (b : ConstantArrayBuilder)
    (t : SliceId) (i : Nat) (v : Obj) (b' b'' : ConstantArrayBuilder) (j : Nat)
    (hI : BuilderInv b)
    (ht : b.IndexToSliceId i = some t)
    (hcom : i < (b.getSlice t).start_index + (b.getSlice t).size)
    (hins : b.InsertAllocatedEntry i v = some b')
    (hfresh : lookupMap b.constants_map v = none)
    (hinsert : b'.Insert v = some (j, b'')) :
    b'.constants_map = b.constants_map ∧ j ≠ i := by
  obtain ⟨hS, hv0, hv1, hv2⟩ := hI
  have hb' : b' = b.setSlice t ((b.getSlice t).InsertAt i v) := by
    unfold ConstantArrayBuilder.InsertAllocatedEntry at hins
    simp only [ht, Option.some.injEq] at hins
    exact hins.symm
  have hmap : b'.constants_map = b.constants_map := by rw [hb']; simp
  refine ⟨hmap, ?_⟩
  have hfresh' : lookupMap b'.constants_map v = none := by rw [hmap]; exact hfresh
  have hAI : ∃ b0, b'.AllocateIndex v = some (j, b0) := by
    unfold ConstantArrayBuilder.Insert at hinsert
    simp only [hfresh'] at hinsert
    unfold ConstantArrayBuilder.AllocateEntry at hinsert
    cases hai : b'.AllocateIndex v with
    | none =>
        rw [hai] at hinsert
        exact Option.noConfusion hinsert
    | some p =>
        obtain ⟨j0, b0⟩ := p
        simp only [hai, Option.some.injEq, Prod.mk.injEq] at hinsert
        exact ⟨b0, by rw [hinsert.1]⟩
  obtain ⟨b0, hai⟩ := hAI
  obtain ⟨u, hfa, hj, _⟩ := AllocateIndex_spec b' v j b0 hai
  have hav := (firstAvailable_spec b' u hfa).1
  have hslice : ∀ w : SliceId, (b'.getSlice w).start_index = (b.getSlice w).start_index ∧
      (b'.getSlice w).capacity = (b.getSlice w).capacity ∧
      (b'.getSlice w).constants.length = (b.getSlice w).constants.length := by
    intro w
    by_cases hw : w = t
    · subst hw
      rw [hb']
      simp
    · rw [hb', getSlice_setSlice_ne _ _ (fun hh => hw hh.symm)]
      exact ⟨rfl, rfl, rfl⟩
  have hltu : (b.getSlice u).constants.length < (b.getSlice u).capacity := by
    have h1 := hav
    unfold ConstantArraySlice.available at h1
    have h2 := (hslice u).2.1
    have h3 := (hslice u).2.2
    omega
  have hj' : j = (b.getSlice u).start_index + (b.getSlice u).constants.length := by
    have h2 := (hslice u).1
    have h3 := (hslice u).2.2
    omega
  have hrange := indexToSliceId_mem b hS ht
  have hcom' : i < (b.getSlice t).start_index + (b.getSlice t).constants.length := hcom
  intro hji
  subst hji
  obtain ⟨hs0, hs1, hs2, hc0, hc1, hc2⟩ := hS
  cases t <;> cases u <;>
    simp only [getSlice_s0, getSlice_s1, getSlice_s2] at hrange hcom' hj' hltu <;>
    omega

theorem InsertAllocatedEntry_bypasses_dedup_witness :
    ((fullTier0.InsertAllocatedEntry 0 (Obj.val 5)).getD fullTier0).constants_map =
      fullTier0.constants_map ∧ 1 ≠ 0 :=
  InsertAllocatedEntry_bypasses_dedup fullTier0 SliceId.s0 0 (Obj.val 5)
    ((fullTier0.InsertAllocatedEntry 0 (Obj.val 5)).getD fullTier0) _ 1
    ⟨by unfold Structured; decide,
     by unfold SliceInv; decide, by unfold SliceInv; decide, by unfold SliceInv; decide⟩
    rfl (by decide) rfl rfl rfl

@[simp]
theorem Reserve_start_index (s : ConstantArraySlice) :
    s.Reserve.start_index = s.start_index := rfl

@[simp]
theorem Reserve_capacity (s : ConstantArraySlice) :
    s.Reserve.capacity = s.capacity := rfl

@[simp]
theorem Reserve_constants (s : ConstantArraySlice) :
    s.Reserve.constants = s.constants := rfl

@[simp]
theorem Allocate_start_index (s : ConstantArraySlice) (v : Obj) :
    (s.Allocate v).2.start_index = s.start_index := rfl

@[simp]
theorem Allocate_capacity (s : ConstantArraySlice) (v : Obj) :
    (s.Allocate v).2.capacity = s.capacity := rfl

@[simp]
theorem Allocate_constants (s : ConstantArraySlice) (v : Obj) :
    (s.Allocate v).2.constants = s.constants ++ [v] := rfl

@[simp]
theorem Allocate_reserved (s : ConstantArraySlice) (v : Obj) :
    (s.Allocate v).2.reserved = s.reserved := rfl

@[simp]
theorem Reserve_reserved (s : ConstantArraySlice) :
    s.Reserve.reserved = s.reserved + 1 := rfl

@[simp]
theorem Unreserve_reserved (s : ConstantArraySlice) :
    s.Unreserve.reserved = s.reserved - 1 := rfl

@[simp]
theorem InsertAt_reserved (s : ConstantArraySlice) (i : Nat) (v : Obj) :
    (s.InsertAt i v).reserved = s.reserved := rfl

theorem BuilderInv.sliceInv {b : ConstantArrayBuilder} (h : BuilderInv b)
    (t : SliceId) : SliceInv (b.getSlice t) := by
  cases t
  · exact h.2.1
  · exact h.2.2.1
  · exact h.2.2.2

theorem Structured_setSlice (b : ConstantArrayBuilder) (t : SliceId)
    (s' : ConstantArraySlice)
    (hst : s'.start_index = (b.getSlice t).start_index)
    (hcap : s'.capacity = (b.getSlice t).capacity)
    (h : Structured b) : Structured (b.setSlice t s') := by
  obtain ⟨h0, h1, h2, h3, h4, h5⟩ := h
  cases t <;>
    simp only [getSlice_s0, getSlice_s1, getSlice_s2] at hst hcap <;>
    unfold Structured <;>
    simp only [ConstantArrayBuilder.setSlice] <;>
    refine ⟨?_, ?_, ?_, ?_, ?_, ?_⟩ <;> omega

theorem BuilderInv_setSlice (b : ConstantArrayBuilder) (t : SliceId)
    (s' : ConstantArraySlice)
    (hst : s'.start_index = (b.getSlice t).start_index)
    (hcap : s'.capacity = (b.getSlice t).capacity)
    (hsi : SliceInv s')
    (h : BuilderInv b) : BuilderInv (b.setSlice t s') := by
  obtain ⟨hS, hv0, hv1, hv2⟩ := h
  refine ⟨Structured_setSlice b t s' hst hcap hS, ?_, ?_, ?_⟩ <;>
    cases t <;> simp only [ConstantArrayBuilder.setSlice] <;> assumption

theorem BuilderInv_mapOnly (b : ConstantArrayBuilder) (m : List (Obj × Nat))
    (h : BuilderInv b) : BuilderInv { b with constants_map := m } := h

theorem BuilderInv_AllocateIndex (b : ConstantArrayBuilder) (v : Obj) (i : Nat)
    (b' : ConstantArrayBuilder) (h : BuilderInv b)
    (ha : b.AllocateIndex v = some (i, b')) : BuilderInv b' := by
  obtain ⟨t, hfa, _, hb'⟩ := AllocateIndex_spec b v i b' ha
  have hav := (firstAvailable_spec b t hfa).1
  have hsi := h.sliceInv t
  subst hb'
  refine BuilderInv_setSlice b t _ (by simp) (by simp) ?_ h
  unfold SliceInv at hsi ⊢
  unfold ConstantArraySlice.available at hav
  simp only [Allocate_reserved, Allocate_constants, Allocate_capacity,
    List.length_append, List.length_cons, List.length_nil]
  omega

theorem BuilderInv_AllocateEntry (b : ConstantArrayBuilder) (v : Obj) (i : Nat)
    (b' : ConstantArrayBuilder) (h : BuilderInv b)
    (ha : b.AllocateEntry v = some (i, b')) : BuilderInv b' := by
  unfold ConstantArrayBuilder.AllocateEntry at ha
  cases hai : b.AllocateIndex v with
  | none => rw [hai] at ha; exact Option.noConfusion ha
  | some p =>
      obtain ⟨i0, b0⟩ := p
      simp only [hai, Option.some.injEq, Prod.mk.injEq] at ha
      rw [← ha.2]
      exact BuilderInv_mapOnly _ _ (BuilderInv_AllocateIndex b v i0 b0 h hai)

theorem BuilderInv_Insert (b : ConstantArrayBuilder) (v : Obj) (i : Nat)
    (b' : ConstantArrayBuilder) (h : BuilderInv b)
    (ha : b.Insert v = some (i, b')) : BuilderInv b' := by
  unfold ConstantArrayBuilder.Insert at ha
  cases hl : lookupMap b.constants_map v with
  | some j =>
      simp only [hl, Option.some.injEq, Prod.mk.injEq] at ha
      rw [← ha.2]; exact h
  | none =>
      simp only [hl] at ha
      exact BuilderInv_AllocateEntry b v i b' h ha

theorem BuilderInv_CreateReservedEntry (b : ConstantArrayBuilder)
    (w : OperandSize) (b' : ConstantArrayBuilder) (h : BuilderInv b)
    (ha : b.CreateReservedEntry = some (w, b')) : BuilderInv b' := by
  unfold ConstantArrayBuilder.CreateReservedEntry at ha
  cases hfa : b.firstAvailable with
  | none => rw [hfa] at ha; exact Option.noConfusion ha
  | some t =>
      have hav := (firstAvailable_spec b t hfa).1
      simp only [hfa, Option.some.injEq, Prod.mk.injEq] at ha
      rw [← ha.2]
      refine BuilderInv_setSlice b t _ (by simp) (by simp) ?_ h
      have hsi := h.sliceInv t
      unfold SliceInv at hsi ⊢
      unfold ConstantArraySlice.available at hav
      simp only [Reserve_reserved, Reserve_constants, Reserve_capacity]
      omega

theorem BuilderInv_DiscardReservedEntry (b : ConstantArrayBuilder)
    (w : OperandSize) (b' : ConstantArrayBuilder) (h : BuilderInv b)
    (ha : b.DiscardReservedEntry w = some b') : BuilderInv b' := by
  unfold ConstantArrayBuilder.DiscardReservedEntry at ha
  cases ht : OperandSizeToSliceId w with
  | none => rw [ht] at ha; exact Option.noConfusion ha
  | some t =>
      simp only [ht, Option.some.injEq] at ha
      rw [← ha]
      refine BuilderInv_setSlice b t _ (by simp) (by simp) ?_ h
      have hsi := h.sliceInv t
      unfold SliceInv at hsi ⊢
      simp only [Unreserve_reserved, Unreserve_constants, Unreserve_capacity]
      omega

theorem BuilderInv_InsertAllocatedEntry (b : ConstantArrayBuilder) (i : Nat)
    (v : Obj) (b' : ConstantArrayBuilder) (h : BuilderInv b)
    (ha : b.InsertAllocatedEntry i v = some b') : BuilderInv b' := by
  unfold ConstantArrayBuilder.InsertAllocatedEntry at ha
  cases ht : b.IndexToSliceId i with
  | none => rw [ht] at ha; exact Option.noConfusion ha
  | some t =>
      simp only [ht, Option.some.injEq] at ha
      rw [← ha]
      refine BuilderInv_setSlice b t _ (by simp) (by simp) ?_ h
      have hsi := h.sliceInv t
      unfold SliceInv at hsi ⊢
      simp only [InsertAt_reserved, InsertAt_length]
      exact hsi

theorem BuilderInv_CommitReservedEntry (b : ConstantArrayBuilder)
    (w : OperandSize) (v : Obj) (i : Nat) (b' : ConstantArrayBuilder) (t : SliceId)
    (h : BuilderInv b) (ht : OperandSizeToSliceId w = some t)
    (hres : 0 < (b.getSlice t).reserved)
    (ha : b.CommitReservedEntry w v = some (i, b')) : BuilderInv b' := by
  have hd : b.DiscardReservedEntry w =
      some (b.setSlice t (b.getSlice t).Unreserve) := by
    unfold ConstantArrayBuilder.DiscardReservedEntry
    rw [ht]
  set b1 := b.setSlice t (b.getSlice t).Unreserve with hb1
  have h1 : BuilderInv b1 := BuilderInv_DiscardReservedEntry b w b1 h hd
  unfold ConstantArrayBuilder.CommitReservedEntry at ha
  rw [hd] at ha
  cases hl : lookupMap b1.constants_map v with
  | none =>
      simp only [hl] at ha
      exact BuilderInv_AllocateEntry b1 v i b' h1 ha
  | some idx =>
      simp only [hl, ht] at ha
      by_cases hw : (b1.getSlice t).max_index < idx
      · rw [if_pos hw] at ha
        simp only [Option.some.injEq, Prod.mk.injEq] at ha
        rw [← ha.2]
        refine BuilderInv_mapOnly _ _ ?_
        refine BuilderInv_setSlice b1 t _ (by simp) (by simp) ?_ h1
        have hsi := h.sliceInv t
        have hget1 : b1.getSlice t = (b.getSlice t).Unreserve := by
          rw [hb1]; simp
        rw [hget1]
        unfold SliceInv at hsi ⊢
        simp only [Allocate_reserved, Allocate_constants, Allocate_capacity,
          Unreserve_reserved, Unreserve_constants, Unreserve_capacity,
          List.length_append, List.length_cons, List.length_nil]
        omega
      · rw [if_neg hw] at ha
        simp only [Option.some.injEq, Prod.mk.injEq] at ha
        rw [← ha.2]
        exact h1

theorem BuilderInv_new (cap0 cap1 cap2 : Nat) (h0 : 0 < cap0) (h1 : 0 < cap1)
    (h2 : 0 < cap2) : BuilderInv (ConstantArrayBuilder.new cap0 cap1 cap2) := by
  refine ⟨⟨rfl, rfl, rfl, h0, h1, h2⟩, ?_, ?_, ?_⟩ <;>
    unfold SliceInv ConstantArrayBuilder.new <;> simp

theorem reachable_inv {b : ConstantArrayBuilder} (h : Reachable b) : BuilderInv b := by
  induction h with
  | init cap0 cap1 cap2 h0 h1 h2 => exact BuilderInv_new cap0 cap1 cap2 h0 h1 h2
  | insert _ ha ih => exact BuilderInv_Insert _ _ _ _ ih ha
  | allocateHole _ ha ih => exact BuilderInv_AllocateIndex _ _ _ _ ih ha
  | insertAllocated _ _ ha ih => exact BuilderInv_InsertAllocatedEntry _ _ _ _ ih ha
  | createReserved _ ha ih => exact BuilderInv_CreateReservedEntry _ _ _ ih ha
  | commitReserved _ ht hres ha ih => exact BuilderInv_CommitReservedEntry _ _ _ _ _ _ ih ht hres ha
  | discardReserved _ ht hres ha ih => exact BuilderInv_DiscardReservedEntry _ _ _ ih ha

/-- C9: in every reachable builder state, every tier satisfies
`reserved + values.length <= capacity`; moreover each slice operation,
run under its stated precondition, preserves this per-slice invariant. -/
theorem slice_capacity_invariant :
    (∀ b : ConstantArrayBuilder, Reachable b → ∀ t : SliceId,
      (b.getSlice t).reserved + (b.getSlice t).constants.length ≤
        (b.getSlice t).capacity) ∧
    (∀ s : ConstantArraySlice, SliceInv s → 0 < s.available → SliceInv s.Reserve) ∧
    (∀ s : ConstantArraySlice, SliceInv s → 0 < s.reserved → SliceInv s.Unreserve) ∧
    (∀ (s : ConstantArraySlice) (v : Obj), SliceInv s → 0 < s.available →
      SliceInv (s.Allocate v).2) ∧
    (∀ (s : ConstantArraySlice) (i : Nat) (v : Obj), SliceInv s →
      SliceInv (s.InsertAt i v)) := by
  refine ⟨?_, ?_, ?_, ?_, ?_⟩
  · intro b hb t
    exact (reachable_inv hb).sliceInv t
  · intro s hs hav
    unfold SliceInv at hs ⊢
    unfold ConstantArraySlice.available at hav
    simp only [Reserve_reserved, Reserve_constants, Reserve_capacity]
    omega
  · intro s hs _
    unfold SliceInv at hs ⊢
    simp only [Unreserve_reserved, Unreserve_constants, Unreserve_capacity]
    omega
  · intro s v hs hav
    unfold SliceInv at hs ⊢
    unfold ConstantArraySlice.available at hav
    simp only [Allocate_reserved, Allocate_constants, Allocate_capacity,
      List.length_append, List.length_cons, List.length_nil]
    omega
  · intro s i v hs
    unfold SliceInv at hs ⊢
    simp only [InsertAt_reserved, InsertAt_length, InsertAt_capacity]
    exact hs

theorem slice_capacity_invariant_witness :
    (((ConstantArrayBuilder.new 4 4 4).getSlice SliceId.s0).reserved +
      ((ConstantArrayBuilder.new 4 4 4).getSlice SliceId.s0).constants.length ≤
      ((ConstantArrayBuilder.new 4 4 4).getSlice SliceId.s0).capacity) ∧
    SliceInv fullTier0.slice1.Reserve ∧
    SliceInv wideRegistered.slice0.Unreserve ∧
    SliceInv (fullTier0.slice1.Allocate (Obj.val 3)).2 ∧
    SliceInv (fullTier0.slice0.InsertAt 0 (Obj.val 8)) :=
  ⟨slice_capacity_invariant.1 _
      (Reachable.init 4 4 4 (by decide) (by decide) (by decide)) SliceId.s0,
   slice_capacity_invariant.2.1 _ (by unfold SliceInv; decide) (by decide),
   slice_capacity_invariant.2.2.1 _ (by unfold SliceInv; decide) (by decide),
   slice_capacity_invariant.2.2.2.1 _ _ (by unfold SliceInv; decide) (by decide),
   slice_capacity_invariant.2.2.2.2 _ 0 _ (by unfold SliceInv; decide)⟩

theorem allUniqueLoop_true {l seen : List Obj}
    (h : allUniqueLoop l seen = true) : l.Nodup ∧ ∀ x ∈ l, x ∉ seen := by
  induction l generalizing seen with
  | nil => exact ⟨List.nodup_nil, by simp⟩
  | cons c rest ih =>
      unfold allUniqueLoop at h
      by_cases hc : c ∈ seen
      · rw [if_pos hc] at h
        exact absurd h (by simp)
      · rw [if_neg hc] at h
        obtain ⟨hnd, hmem⟩ := ih h
        have hcr : c ∉ rest := fun hin =>
          hmem c hin (List.mem_cons_self c seen)
        refine ⟨List.nodup_cons.2 ⟨hcr, hnd⟩, ?_⟩
        intro x hx
        rcases List.mem_cons.1 hx with rfl | hx'
        · exact hc
        · exact fun hs => hmem x hx' (List.mem_cons_of_mem c hs)

/-- C10: a tier whose committed constants contain the hole sentinel at two
distinct positions — as produced by two never-filled no-value
`AllocateEntry()` calls — fails the pre-serialization `AllElementsAreUnique`
check, so `ToFixedArray` hits the fatal non-canonical-duplicate assertion;
the concrete reachable state `twoHoles`, built with public operations only
and no duplicate constants inserted, exhibits this. -/
theorem duplicate_holes_fail_uniqueness :
    (∀ (s : ConstantArraySlice) (i j : Nat), i ≠ j →
      s.constants[i]? = some Obj.theHole → s.constants[j]? = some Obj.theHole →
      s.AllElementsAreUnique = false) ∧
    (Reachable twoHoles ∧
      twoHoles.At 0 = some Obj.theHole ∧
      twoHoles.At 1 = some Obj.theHole ∧
      twoHoles.slice0.AllElementsAreUnique = false ∧
      twoHoles.ToFixedArrayChecks = false) := by
  constructor
  · intro s i j hij hi hj
    cases h : s.AllElementsAreUnique with
    | false => rfl
    | true =>
        exfalso
        have hnd := (allUniqueLoop_true h).1
        have hlen : i < s.constants.length := by
          by_contra hc
          rw [List.getElem?_eq_none (by omega)] at hi
          exact Option.noConfusion hi
        exact hij (List.getElem?_inj hlen hnd (hi.trans hj.symm))
  · refine ⟨?_, by decide, by decide, by decide, by decide⟩
    exact Reachable.allocateHole
      (Reachable.allocateHole
        (Reachable.init 4 4 4 (by decide) (by decide) (by decide)) (by rfl))
      (by rfl)

theorem duplicate_holes_fail_uniqueness_witness :
    twoHoles.slice0.AllElementsAreUnique = false :=
  duplicate_holes_fail_uniqueness.1 twoHoles.slice0 0 1 (by decide) (by decide)
    (by decide)

theorem Structured_mapOnly (b : ConstantArrayBuilder) (m : List (Obj × Nat))
    (h : Structured b) : Structured { b with constants_map := m } := h

theorem indexToSliceId_setSlice (b : ConstantArrayBuilder) (u : SliceId)
    (s' : ConstantArraySlice)
    (hst : s'.start_index = (b.getSlice u).start_index)
    (hcap : s'.capacity = (b.getSlice u).capacity) (j : Nat) :
    (b.setSlice u s').IndexToSliceId j = b.IndexToSliceId j := by
  have h0 : (b.setSlice u s').slice0.max_index = b.slice0.max_index := by
    cases u <;>
      simp only [getSlice_s0, getSlice_s1, getSlice_s2] at hst hcap <;>
      simp [ConstantArrayBuilder.setSlice, ConstantArraySlice.max_index, hst, hcap]
  have h1 : (b.setSlice u s').slice1.max_index = b.slice1.max_index := by
    cases u <;>
      simp only [getSlice_s0, getSlice_s1, getSlice_s2] at hst hcap <;>
      simp [ConstantArrayBuilder.setSlice, ConstantArraySlice.max_index, hst, hcap]
  have h2 : (b.setSlice u s').slice2.max_index = b.slice2.max_index := by
    cases u <;>
      simp only [getSlice_s0, getSlice_s1, getSlice_s2] at hst hcap <;>
      simp [ConstantArrayBuilder.setSlice, ConstantArraySlice.max_index, hst, hcap]
  unfold ConstantArrayBuilder.IndexToSliceId
  rw [h0, h1, h2]

theorem HoleAt_mapOnly (b : ConstantArrayBuilder) (m : List (Obj × Nat)) (i : Nat)
    (h : HoleAt b i) : HoleAt { b with constants_map := m } i := by
  obtain ⟨t, ht, h1, h2, h3⟩ := h
  refine ⟨t, ht, ?_, ?_, ?_⟩ <;> rw [getSlice_mapOnly] <;> assumption

theorem HoleAt_setSlice (b : ConstantArrayBuilder) (u : SliceId)
    (s' : ConstantArraySlice) (i : Nat)
    (hst : s'.start_index = (b.getSlice u).start_index)
    (hcap : s'.capacity = (b.getSlice u).capacity)
    (hlen : (b.getSlice u).constants.length ≤ s'.constants.length)
    (hkeep : ∀ q, q < (b.getSlice u).constants.length →
      i = (b.getSlice u).start_index + q →
      s'.constants.getD q Obj.theHole = (b.getSlice u).constants.getD q Obj.theHole)
    (h : HoleAt b i) : HoleAt (b.setSlice u s') i := by
  obtain ⟨t, ht, h1, h2, h3⟩ := h
  have hid : (b.setSlice u s').IndexToSliceId i = some t := by
    rw [indexToSliceId_setSlice b u s' hst hcap]; exact ht
  by_cases htu : u = t
  · subst htu
    have hq : i - (b.getSlice u).start_index < (b.getSlice u).constants.length := by
      omega
    have hiq : i = (b.getSlice u).start_index + (i - (b.getSlice u).start_index) := by
      omega
    have hk := hkeep (i - (b.getSlice u).start_index) hq hiq
    refine ⟨u, hid, ?_, ?_, ?_⟩ <;> rw [getSlice_setSlice_same]
    · omega
    · omega
    · rw [hst, hk]
      exact h3
  · have hget : (b.setSlice u s').getSlice t = b.getSlice t :=
      getSlice_setSlice_ne b _ htu
    refine ⟨t, hid, ?_, ?_, ?_⟩ <;> rw [hget] <;> assumption

theorem indexToSliceId_of_mem (b : ConstantArrayBuilder) (hS : Structured b)
    (t : SliceId) {i : Nat}
    (h1 : (b.getSlice t).start_index ≤ i)
    (h2 : i < (b.getSlice t).start_index + (b.getSlice t).capacity) :
    b.IndexToSliceId i = some t := by
  obtain ⟨hs0, hs1, hs2, hc0, hc1, hc2⟩ := hS
  have hm0 : b.slice0.max_index = b.slice0.start_index + b.slice0.capacity - 1 := rfl
  have hm1 : b.slice1.max_index = b.slice1.start_index + b.slice1.capacity - 1 := rfl
  have hm2 : b.slice2.max_index = b.slice2.start_index + b.slice2.capacity - 1 := rfl
  unfold ConstantArrayBuilder.IndexToSliceId
  cases t <;> simp only [getSlice_s0, getSlice_s1, getSlice_s2] at h1 h2
  · rw [if_pos (by omega)]
  · rw [if_neg (by omega), if_pos (by omega)]
  · rw [if_neg (by omega), if_neg (by omega), if_pos (by omega)]

theorem preserve_AllocateIndex (i : Nat) (b : ConstantArrayBuilder) (v : Obj)
    (j : Nat) (b' : ConstantArrayBuilder) (hS : Structured b) (hH : HoleAt b i)
    (hop : b.AllocateIndex v = some (j, b')) : Structured b' ∧ HoleAt b' i := by
  obtain ⟨t, _, _, hb'⟩ := AllocateIndex_spec b v j b' hop
  subst hb'
  constructor
  · exact Structured_setSlice b t _ (by simp) (by simp) hS
  · refine HoleAt_setSlice b t _ i (by simp) (by simp) (by simp) ?_ hH
    intro q hq _
    simp only [Allocate_constants]
    exact List.getD_append _ _ _ _ hq

theorem preserve_AllocateEntry (i : Nat) (b : ConstantArrayBuilder) (v : Obj)
    (j : Nat) (b' : ConstantArrayBuilder) (hS : Structured b) (hH : HoleAt b i)
    (hop : b.AllocateEntry v = some (j, b')) : Structured b' ∧ HoleAt b' i := by
  unfold ConstantArrayBuilder.AllocateEntry at hop
  cases hai : b.AllocateIndex v with
  | none => rw [hai] at hop; exact Option.noConfusion hop
  | some p =>
      obtain ⟨j0, b0⟩ := p
      simp only [hai, Option.some.injEq, Prod.mk.injEq] at hop
      rw [← hop.2]
      obtain ⟨hS0, hH0⟩ := preserve_AllocateIndex i b v j0 b0 hS hH hai
      exact ⟨Structured_mapOnly _ _ hS0, HoleAt_mapOnly _ _ _ hH0⟩

theorem preserve_InsertAllocatedEntry (i j : Nat) (b : ConstantArrayBuilder)
    (v : Obj) (b' : ConstantArrayBuilder) (hS : Structured b) (hH : HoleAt b i)
    (hji : j ≠ i) (hop : b.InsertAllocatedEntry j v = some b') :
    Structured b' ∧ HoleAt b' i := by
  unfold ConstantArrayBuilder.InsertAllocatedEntry at hop
  cases htj : b.IndexToSliceId j with
  | none => rw [htj] at hop; exact Option.noConfusion hop
  | some u =>
      simp only [htj, Option.some.injEq] at hop
      rw [← hop]
      have hjmem := indexToSliceId_mem b hS htj
      constructor
      · exact Structured_setSlice b u _ (by simp) (by simp) hS
      · refine HoleAt_setSlice b u _ i (by simp) (by simp) (by simp) ?_ hH
        intro q hq hiq
        have hne : j - (b.getSlice u).start_index ≠ q := by omega
        unfold ConstantArraySlice.InsertAt
        show ((b.getSlice u).constants.set (j - (b.getSlice u).start_index) v).getD
          q Obj.theHole = (b.getSlice u).constants.getD q Obj.theHole
        rw [List.getD_eq_getElem _ _ (by simp [hq]), List.getD_eq_getElem _ _ hq]
        exact List.getElem_set_ne hne _

theorem preserve_reservedChange (i : Nat) (b : ConstantArrayBuilder) (u : SliceId)
    (s' : ConstantArraySlice) (hS : Structured b) (hH : HoleAt b i)
    (hst : s'.start_index = (b.getSlice u).start_index)
    (hcap : s'.capacity = (b.getSlice u).capacity)
    (hcs : s'.constants = (b.getSlice u).constants) :
    Structured (b.setSlice u s') ∧ HoleAt (b.setSlice u s') i := by
  constructor
  · exact Structured_setSlice b u s' hst hcap hS
  · refine HoleAt_setSlice b u s' i hst hcap (by rw [hcs]) ?_ hH
    intro q _ _
    rw [hcs]

theorem otherOp_preserves (i : Nat) (b b' : ConstantArrayBuilder)
    (hS : Structured b) (hH : HoleAt b i) (h : OtherOp i b b') :
    Structured b' ∧ HoleAt b' i := by
  cases h with
  | insert hop =>
      rename_i v j
      unfold ConstantArrayBuilder.Insert at hop
      cases hl : lookupMap b.constants_map v with
      | some k =>
          simp only [hl, Option.some.injEq, Prod.mk.injEq] at hop
          rw [← hop.2]; exact ⟨hS, hH⟩
      | none =>
          simp only [hl] at hop
          exact preserve_AllocateEntry i b v j b' hS hH hop
  | allocateHole hop =>
      exact preserve_AllocateIndex i b Obj.theHole _ b' hS hH hop
  | insertAllocated hji hop =>
      exact preserve_InsertAllocatedEntry i _ b _ b' hS hH hji hop
  | createReserved hop =>
      unfold ConstantArrayBuilder.CreateReservedEntry at hop
      cases hfa : b.firstAvailable with
      | none => rw [hfa] at hop; exact Option.noConfusion hop
      | some t =>
          simp only [hfa, Option.some.injEq, Prod.mk.injEq] at hop
          rw [← hop.2]
          exact preserve_reservedChange i b t _ hS hH (by simp) (by simp) (by simp)
  | commitReserved hop =>
      rename_i w v j
      unfold ConstantArrayBuilder.CommitReservedEntry at hop
      cases hd : b.DiscardReservedEntry w with
      | none => rw [hd] at hop; exact Option.noConfusion hop
      | some b1 =>
          rw [hd] at hop
          have hb1 : Structured b1 ∧ HoleAt b1 i := by
            unfold ConstantArrayBuilder.DiscardReservedEntry at hd
            cases htw : OperandSizeToSliceId w with
            | none => rw [htw] at hd; exact Option.noConfusion hd
            | some t =>
                simp only [htw, Option.some.injEq] at hd
                rw [← hd]
                exact preserve_reservedChange i b t _ hS hH (by simp) (by simp) (by simp)
          obtain ⟨hS1, hH1⟩ := hb1
          cases hl : lookupMap b1.constants_map v with
          | none =>
              simp only [hl] at hop
              exact preserve_AllocateEntry i b1 v j b' hS1 hH1 hop
          | some idx =>
              simp only [hl] at hop
              cases htw : OperandSizeToSliceId w with
              | none => rw [htw] at hop; exact Option.noConfusion hop
              | some t =>
                  simp only [htw] at hop
                  by_cases hw : (b1.getSlice t).max_index < idx
                  · rw [if_pos hw] at hop
                    simp only [Option.some.injEq, Prod.mk.injEq] at hop
                    rw [← hop.2]
                    have hstep : Structured (b1.setSlice t ((b1.getSlice t).Allocate v).2) ∧
                        HoleAt (b1.setSlice t ((b1.getSlice t).Allocate v).2) i := by
                      constructor
                      · exact Structured_setSlice b1 t _ (by simp) (by simp) hS1
                      · refine HoleAt_setSlice b1 t _ i (by simp) (by simp) (by simp) ?_ hH1
                        intro q hq _
                        simp only [Allocate_constants]
                        exact List.getD_append _ _ _ _ hq
                    exact ⟨Structured_mapOnly _ _ hstep.1, HoleAt_mapOnly _ _ _ hstep.2⟩
                  · rw [if_neg hw] at hop
                    simp only [Option.some.injEq, Prod.mk.injEq] at hop
                    rw [← hop.2]
                    exact ⟨hS1, hH1⟩
  | discardReserved hop =>
      rename_i w
      unfold ConstantArrayBuilder.DiscardReservedEntry at hop
      cases htw : OperandSizeToSliceId w with
      | none => rw [htw] at hop; exact Option.noConfusion hop
      | some t =>
          simp only [htw, Option.some.injEq] at hop
          rw [← hop]
          exact preserve_reservedChange i b t _ hS hH (by simp) (by simp) (by simp)

theorem HoleAt_At (b : ConstantArrayBuilder) (i : Nat) (h : HoleAt b i) :
    b.At i = some Obj.theHole := by
  obtain ⟨t, ht, h1, h2, h3⟩ := h
  unfold ConstantArrayBuilder.At
  rw [ht]
  show (if i < (b.getSlice t).start_index + (b.getSlice t).size
        then some ((b.getSlice t).At i) else some Obj.theHole) = some Obj.theHole
  rw [if_pos (show i < (b.getSlice t).start_index + (b.getSlice t).size from h2)]
  show some ((b.getSlice t).constants.getD (i - (b.getSlice t).start_index)
    Obj.theHole) = some Obj.theHole
  rw [h3]

theorem insertAllocated_fills (b2 : ConstantArrayBuilder) (i : Nat) (v : Obj)
    (b3 : ConstantArrayBuilder) (hH2 : HoleAt b2 i)
    (hop : b2.InsertAllocatedEntry i v = some b3) : b3.At i = some v := by
  obtain ⟨t, ht, h1, h2, h3⟩ := hH2
  unfold ConstantArrayBuilder.InsertAllocatedEntry at hop
  simp only [ht, Option.some.injEq] at hop
  rw [← hop]
  have hid : (b2.setSlice t ((b2.getSlice t).InsertAt i v)).IndexToSliceId i = some t := by
    rw [indexToSliceId_setSlice b2 t _ (by simp) (by simp)]
    exact ht
  unfold ConstantArrayBuilder.At
  rw [hid]
  show (if i < ((b2.setSlice t ((b2.getSlice t).InsertAt i v)).getSlice t).start_index +
          ((b2.setSlice t ((b2.getSlice t).InsertAt i v)).getSlice t).size
        then some (((b2.setSlice t ((b2.getSlice t).InsertAt i v)).getSlice t).At i)
        else some Obj.theHole) = some v
  rw [getSlice_setSlice_same]
  have hcond : i < ((b2.getSlice t).InsertAt i v).start_index +
      ((b2.getSlice t).InsertAt i v).size := by
    show i < ((b2.getSlice t).InsertAt i v).start_index +
      ((b2.getSlice t).InsertAt i v).constants.length
    simp only [InsertAt_start_index, InsertAt_length]
    exact h2
  rw [if_pos hcond]
  show some (((b2.getSlice t).constants.set (i - (b2.getSlice t).start_index) v).getD
    (i - (b2.getSlice t).start_index) Obj.theHole) = some v
  rw [List.getD_eq_getElem _ _ (by simp only [List.length_set]; omega)]
  exact congrArg some (List.getElem_set_self _)

theorem holeAt_chain (i : Nat) (b1 b2 : ConstantArrayBuilder)
    (h : Relation.ReflTransGen (OtherOp i) b1 b2)
    (h1 : Structured b1 ∧ HoleAt b1 i) : Structured b2 ∧ HoleAt b2 i := by
  induction h with
  | refl => exact h1
  | tail _ hstep ih => exact otherOp_preserves i _ _ ih.1 ih.2 hstep

/-- C6: after `i = AllocateEntry()` (the no-value forward-reference form),
`At i` returns the hole sentinel, and keeps returning it across any sequence
of further public operations that do not call `InsertAllocatedEntry` at `i`;
once `InsertAllocatedEntry i v` is called, `At i` returns `v`. -/
theorem AllocateEntry_hole_until_filled (b : ConstantArrayBuilder) (i : Nat)
    (b1 : ConstantArrayBuilder) (hS : Structured b)
    (ha : b.AllocateEntryNoValue = some (i, b1)) :
    b1.At i = some Obj.theHole ∧
    ∀ b2 : ConstantArrayBuilder, Relation.ReflTransGen (OtherOp i) b1 b2 →
      b2.At i = some Obj.theHole ∧
      ∀ (v : Obj) (b3 : ConstantArrayBuilder),
        b2.InsertAllocatedEntry i v = some b3 → b3.At i = some v := by
  obtain ⟨t, hfa, hi, hb1⟩ := AllocateIndex_spec b Obj.theHole i b1 ha
  have hav := (firstAvailable_spec b t hfa).1
  have hlt : (b.getSlice t).constants.length < (b.getSlice t).capacity := by
    unfold ConstantArraySlice.available at hav
    omega
  have hS1 : Structured b1 := by
    rw [hb1]
    exact Structured_setSlice b t _ (by simp) (by simp) hS
  have hH1 : HoleAt b1 i := by
    rw [hb1]
    have hid : (b.setSlice t ((b.getSlice t).Allocate Obj.theHole).2).IndexToSliceId i =
        some t := by
      refine indexToSliceId_of_mem _ ?_ t ?_ ?_
      · exact Structured_setSlice b t _ (by simp) (by simp) hS
      · rw [getSlice_setSlice_same]
        simp only [Allocate_start_index]
        omega
      · rw [getSlice_setSlice_same]
        simp only [Allocate_start_index, Allocate_capacity]
        omega
    refine ⟨t, hid, ?_, ?_, ?_⟩ <;> rw [getSlice_setSlice_same] <;>
      simp only [Allocate_start_index, Allocate_constants, List.length_append,
        List.length_cons, List.length_nil]
    · omega
    · omega
    · rw [List.getD_append_right _ _ _ _ (by omega)]
      have : i - (b.getSlice t).start_index - (b.getSlice t).constants.length = 0 := by
        omega
      rw [this]
      rfl
  refine ⟨HoleAt_At b1 i hH1, ?_⟩
  intro b2 hchain
  obtain ⟨hS2, hH2⟩ := holeAt_chain i b1 b2 hchain ⟨hS1, hH1⟩
  exact ⟨HoleAt_At b2 i hH2, fun v b3 hop => insertAllocated_fills b2 i v b3 hH2 hop⟩

theorem AllocateEntry_hole_until_filled_witness :
    c6b1.At 0 = some Obj.theHole ∧
    c6b2.At 0 = some Obj.theHole ∧
    c6b3.At 0 = some (Obj.val 9) :=
  ⟨(AllocateEntry_hole_until_filled (ConstantArrayBuilder.new 4 4 4) 0 c6b1
      (by unfold Structured; decide) rfl).1,
   ((AllocateEntry_hole_until_filled (ConstantArrayBuilder.new 4 4 4) 0 c6b1
      (by unfold Structured; decide) rfl).2 c6b2
      (Relation.ReflTransGen.tail Relation.ReflTransGen.refl
        (@OtherOp.insert 0 c6b1 (Obj.val 5) 1 c6b2 (by rfl)))).1,
   ((AllocateEntry_hole_until_filled (ConstantArrayBuilder.new 4 4 4) 0 c6b1
      (by unfold Structured; decide) rfl).2 c6b2
      (Relation.ReflTransGen.tail Relation.ReflTransGen.refl
        (@OtherOp.insert 0 c6b1 (Obj.val 5) 1 c6b2 (by rfl)))).2
      (Obj.val 9) c6b3 rfl⟩

theorem insertAll_fill (cap0 cap1 cap2 : Nat) :
    ∀ (vs done : List Obj) (b : ConstantArrayBuilder),
    (∀ x ∈ vs, x ∉ done) → vs.Nodup →
    done.length + vs.length ≤ cap0 + cap1 + cap2 →
    b.slice0.start_index = 0 → b.slice0.capacity = cap0 → b.slice0.reserved = 0 →
    b.slice0.constants = done.take cap0 →
    b.slice1.start_index = cap0 → b.slice1.capacity = cap1 → b.slice1.reserved = 0 →
    b.slice1.constants = (done.drop cap0).take cap1 →
    b.slice2.start_index = cap0 + cap1 → b.slice2.capacity = cap2 →
    b.slice2.reserved = 0 →
    b.slice2.constants = (done.drop (cap0 + cap1)).take cap2 →
    (∀ x, x ∉ done → lookupMap b.constants_map x = none) →
    ∃ b' : ConstantArrayBuilder, insertAll b vs = some b' ∧
      b'.slice0.start_index = 0 ∧ b'.slice1.start_index = cap0 ∧
      b'.slice2.start_index = cap0 + cap1 ∧
      b'.slice0.constants = (done ++ vs).take cap0 ∧
      b'.slice1.constants = ((done ++ vs).drop cap0).take cap1 ∧
      b'.slice2.constants = ((done ++ vs).drop (cap0 + cap1)).take cap2 := by
  intro vs
  induction vs with
  | nil =>
      intro done b _ _ _ hs0 _ _ hcs0 hs1 _ _ hcs1 hs2 _ _ hcs2 _
      exact ⟨b, rfl, hs0, hs1, hs2,
        by simpa using hcs0, by simpa using hcs1, by simpa using hcs2⟩
  | cons v rest ih =>
      intro done b hfresh hnd hlen hs0 hc0 hr0 hcs0 hs1 hc1 hr1 hcs1 hs2 hc2 hr2 hcs2 hmap
      have hvnot : v ∉ done := hfresh v (List.mem_cons_self v rest)
      have hlook : lookupMap b.constants_map v = none := hmap v hvnot
      have hnd' : rest.Nodup := (List.nodup_cons.1 hnd).2
      have hvrest : v ∉ rest := (List.nodup_cons.1 hnd).1
      have hfresh' : ∀ x ∈ rest, x ∉ done ++ [v] := by
        intro x hx hmem
        rcases List.mem_append.1 hmem with h | h
        · exact hfresh x (List.mem_cons_of_mem v hx) h
        · rcases List.mem_singleton.1 h with rfl
          exact hvrest hx
      have hlen' : (done ++ [v]).length + rest.length ≤ cap0 + cap1 + cap2 := by
        simp only [List.length_append, List.length_cons, List.length_nil,
          List.length_singleton] at hlen ⊢
        omega
      have hav0 : b.slice0.available = cap0 - min cap0 done.length := by
        unfold ConstantArraySlice.available
        rw [hcs0, hc0, hr0, List.length_take]
        omega
      have hav1 : b.slice1.available = cap1 - min cap1 (done.length - cap0) := by
        unfold ConstantArraySlice.available
        rw [hcs1, hc1, hr1, List.length_take, List.length_drop]
        omega
      have hav2 : b.slice2.available = cap2 - min cap2 (done.length - cap0 - cap1) := by
        unfold ConstantArraySlice.available
        rw [hcs2, hc2, hr2, List.length_take, List.length_drop]
        omega
      have hntot : done.length < cap0 + cap1 + cap2 := by
        simp only [List.length_cons] at hlen
        omega
      by_cases hA : done.length < cap0
      · -- allocate in tier 0
        have hfa : b.firstAvailable = some .s0 := by
          unfold ConstantArrayBuilder.firstAvailable
          rw [if_pos (by rw [hav0]; omega)]
        have hIns : b.Insert v = some (b.slice0.constants.length + b.slice0.start_index,
            { b.setSlice .s0 ((b.getSlice .s0).Allocate v).2 with
              constants_map := mapUpdate b.constants_map v
                (b.slice0.constants.length + b.slice0.start_index) }) := by
          unfold ConstantArrayBuilder.Insert
          simp only [hlook]
          unfold ConstantArrayBuilder.AllocateEntry ConstantArrayBuilder.AllocateIndex
          simp only [hfa]
          rfl
        have hrun : insertAll b (v :: rest) =
            insertAll { b.setSlice .s0 ((b.getSlice .s0).Allocate v).2 with
              constants_map := mapUpdate b.constants_map v
                (b.slice0.constants.length + b.slice0.start_index) } rest := by
          conv_lhs => rw [insertAll]
          simp only [hIns]
        obtain ⟨b', hrun', hT0, hT1, hT2, hA0, hA1, hA2⟩ :=
          ih (done ++ [v])
            { b.setSlice .s0 ((b.getSlice .s0).Allocate v).2 with
              constants_map := mapUpdate b.constants_map v
                (b.slice0.constants.length + b.slice0.start_index) }
            hfresh' hnd' hlen'
            (by simp [ConstantArrayBuilder.setSlice, hs0]) (by simp [ConstantArrayBuilder.setSlice, hc0]) (by simp [ConstantArrayBuilder.setSlice, hr0])
            (by
              show ((b.getSlice .s0).Allocate v).2.constants = (done ++ [v]).take cap0
              rw [Allocate_constants, getSlice_s0, hcs0,
                List.take_of_length_le (le_of_lt hA),
                List.take_of_length_le (by simp; omega)])
            (by simp [ConstantArrayBuilder.setSlice, hs1]) (by simp [ConstantArrayBuilder.setSlice, hc1]) (by simp [ConstantArrayBuilder.setSlice, hr1])
            (by
              show b.slice1.constants = ((done ++ [v]).drop cap0).take cap1
              rw [hcs1, List.drop_eq_nil_of_le (le_of_lt hA),
                List.drop_eq_nil_of_le (by simp; omega)])
            (by simp [ConstantArrayBuilder.setSlice, hs2]) (by simp [ConstantArrayBuilder.setSlice, hc2]) (by simp [ConstantArrayBuilder.setSlice, hr2])
            (by
              show b.slice2.constants = ((done ++ [v]).drop (cap0 + cap1)).take cap2
              rw [hcs2, List.drop_eq_nil_of_le (by omega),
                List.drop_eq_nil_of_le (by simp; omega)])
            (by
              intro x hx
              have hxv : x ≠ v := by
                intro hxv
                exact hx (by rw [hxv]; exact List.mem_append_right done (List.mem_singleton_self v))
              show lookupMap (mapUpdate b.constants_map v
                (b.slice0.constants.length + b.slice0.start_index)) x = none
              rw [lookupMap_mapUpdate_ne _ _ hxv]
              exact hmap x (fun hxd => hx (List.mem_append_left [v] hxd)))
        refine ⟨b', by rw [hrun]; exact hrun', hT0, hT1, hT2, ?_, ?_, ?_⟩ <;>
          rw [← List.singleton_append, ← List.append_assoc] <;> assumption
      · by_cases hB : done.length < cap0 + cap1
        · -- allocate in tier 1
          have hfa : b.firstAvailable = some .s1 := by
            unfold ConstantArrayBuilder.firstAvailable
            rw [if_neg (by rw [hav0]; omega), if_pos (by rw [hav1]; omega)]
          have hIns : b.Insert v = some (b.slice1.constants.length + b.slice1.start_index,
              { b.setSlice .s1 ((b.getSlice .s1).Allocate v).2 with
                constants_map := mapUpdate b.constants_map v
                  (b.slice1.constants.length + b.slice1.start_index) }) := by
            unfold ConstantArrayBuilder.Insert
            simp only [hlook]
            unfold ConstantArrayBuilder.AllocateEntry ConstantArrayBuilder.AllocateIndex
            simp only [hfa]
            rfl
          have hrun : insertAll b (v :: rest) =
              insertAll { b.setSlice .s1 ((b.getSlice .s1).Allocate v).2 with
                constants_map := mapUpdate b.constants_map v
                  (b.slice1.constants.length + b.slice1.start_index) } rest := by
            conv_lhs => rw [insertAll]
            simp only [hIns]
          obtain ⟨b', hrun', hT0, hT1, hT2, hA0, hA1, hA2⟩ :=
            ih (done ++ [v])
              { b.setSlice .s1 ((b.getSlice .s1).Allocate v).2 with
                constants_map := mapUpdate b.constants_map v
                  (b.slice1.constants.length + b.slice1.start_index) }
              hfresh' hnd' hlen'
              (by simp [ConstantArrayBuilder.setSlice, hs0]) (by simp [ConstantArrayBuilder.setSlice, hc0]) (by simp [ConstantArrayBuilder.setSlice, hr0])
              (by
                show b.slice0.constants = (done ++ [v]).take cap0
                rw [hcs0, List.take_append_of_le_length (by omega)])
              (by simp [ConstantArrayBuilder.setSlice, hs1]) (by simp [ConstantArrayBuilder.setSlice, hc1]) (by simp [ConstantArrayBuilder.setSlice, hr1])
              (by
                show ((b.getSlice .s1).Allocate v).2.constants =
                  ((done ++ [v]).drop cap0).take cap1
                rw [Allocate_constants, getSlice_s1, hcs1,
                  List.drop_append_of_le_length (by omega),
                  List.take_of_length_le (by rw [List.length_drop]; omega),
                  List.take_of_length_le (by simp [List.length_drop]; omega)])
              (by simp [ConstantArrayBuilder.setSlice, hs2]) (by simp [ConstantArrayBuilder.setSlice, hc2]) (by simp [ConstantArrayBuilder.setSlice, hr2])
              (by
                show b.slice2.constants = ((done ++ [v]).drop (cap0 + cap1)).take cap2
                rw [hcs2, List.drop_eq_nil_of_le (by omega),
                  List.drop_eq_nil_of_le (by simp; omega)])
              (by
                intro x hx
                have hxv : x ≠ v := by
                  intro hxv
                  exact hx (by rw [hxv]; exact List.mem_append_right done (List.mem_singleton_self v))
                show lookupMap (mapUpdate b.constants_map v
                  (b.slice1.constants.length + b.slice1.start_index)) x = none
                rw [lookupMap_mapUpdate_ne _ _ hxv]
                exact hmap x (fun hxd => hx (List.mem_append_left [v] hxd)))
          refine ⟨b', by rw [hrun]; exact hrun', hT0, hT1, hT2, ?_, ?_, ?_⟩ <;>
            rw [← List.singleton_append, ← List.append_assoc] <;> assumption
        · -- allocate in tier 2
          have hfa : b.firstAvailable = some .s2 := by
            unfold ConstantArrayBuilder.firstAvailable
            rw [if_neg (by rw [hav0]; omega), if_neg (by rw [hav1]; omega),
              if_pos (by rw [hav2]; omega)]
          have hIns : b.Insert v = some (b.slice2.constants.length + b.slice2.start_index,
              { b.setSlice .s2 ((b.getSlice .s2).Allocate v).2 with
                constants_map := mapUpdate b.constants_map v
                  (b.slice2.constants.length + b.slice2.start_index) }) := by
            unfold ConstantArrayBuilder.Insert
            simp only [hlook]
            unfold ConstantArrayBuilder.AllocateEntry ConstantArrayBuilder.AllocateIndex
            simp only [hfa]
            rfl
          have hrun : insertAll b (v :: rest) =
              insertAll { b.setSlice .s2 ((b.getSlice .s2).Allocate v).2 with
                constants_map := mapUpdate b.constants_map v
                  (b.slice2.constants.length + b.slice2.start_index) } rest := by
            conv_lhs => rw [insertAll]
            simp only [hIns]
          obtain ⟨b', hrun', hT0, hT1, hT2, hA0, hA1, hA2⟩ :=
            ih (done ++ [v])
              { b.setSlice .s2 ((b.getSlice .s2).Allocate v).2 with
                constants_map := mapUpdate b.constants_map v
                  (b.slice2.constants.length + b.slice2.start_index) }
              hfresh' hnd' hlen'
              (by simp [ConstantArrayBuilder.setSlice, hs0]) (by simp [ConstantArrayBuilder.setSlice, hc0]) (by simp [ConstantArrayBuilder.setSlice, hr0])
              (by
                show b.slice0.constants = (done ++ [v]).take cap0
                rw [hcs0, List.take_append_of_le_length (by omega)])
              (by simp [ConstantArrayBuilder.setSlice, hs1]) (by simp [ConstantArrayBuilder.setSlice, hc1]) (by simp [ConstantArrayBuilder.setSlice, hr1])
              (by
                show b.slice1.constants = ((done ++ [v]).drop cap0).take cap1
                rw [hcs1, List.drop_append_of_le_length (by omega),
                  List.take_append_of_le_length (by rw [List.length_drop]; omega)])
              (by simp [ConstantArrayBuilder.setSlice, hs2]) (by simp [ConstantArrayBuilder.setSlice, hc2]) (by simp [ConstantArrayBuilder.setSlice, hr2])
              (by
                show ((b.getSlice .s2).Allocate v).2.constants =
                  ((done ++ [v]).drop (cap0 + cap1)).take cap2
                rw [Allocate_constants, getSlice_s2, hcs2,
                  List.drop_append_of_le_length (by omega),
                  List.take_of_length_le (by rw [List.length_drop]; omega),
                  List.take_of_length_le (by simp [List.length_drop]; omega)])
              (by
                intro x hx
                have hxv : x ≠ v := by
                  intro hxv
                  exact hx (by rw [hxv]; exact List.mem_append_right done (List.mem_singleton_self v))
                show lookupMap (mapUpdate b.constants_map v
                  (b.slice2.constants.length + b.slice2.start_index)) x = none
                rw [lookupMap_mapUpdate_ne _ _ hxv]
                exact hmap x (fun hxd => hx (List.mem_append_left [v] hxd)))
          refine ⟨b', by rw [hrun]; exact hrun', hT0, hT1, hT2, ?_, ?_, ?_⟩ <;>
            rw [← List.singleton_append, ← List.append_assoc] <;> assumption

/-- C5: `size` is the widest-to-narrowest scan returning
`start_index + committed count` of the first nonempty tier (zero when all
tiers are empty), and consequently, after `N` distinct `Insert` calls on a
fresh builder with zero reservations and no tier overflow, `size` equals
`N`. -/
theorem size_scan_and_count :
    (∀ b : ConstantArrayBuilder, b.size = sizeSpec b) ∧
    (∀ (vs : List Obj) (cap0 cap1 cap2 : Nat) (b : ConstantArrayBuilder),
      vs.Nodup → vs.length ≤ cap0 + cap1 + cap2 →
      insertAll (ConstantArrayBuilder.new cap0 cap1 cap2) vs = some b →
      b.size = vs.length) := by
  constructor
  · intro b
    rfl
  · intro vs cap0 cap1 cap2 b hnd hlen hrun
    obtain ⟨b', hrun', hT0, hT1, hT2, h0, h1, h2⟩ :=
      insertAll_fill cap0 cap1 cap2 vs [] (ConstantArrayBuilder.new cap0 cap1 cap2)
        (by simp) hnd (by simpa using hlen)
        rfl rfl rfl (by simp [ConstantArrayBuilder.new])
        rfl rfl rfl (by simp [ConstantArrayBuilder.new])
        rfl rfl rfl (by simp [ConstantArrayBuilder.new])
        (fun x _ => rfl)
    rw [hrun'] at hrun
    have hb : b' = b := by
      simpa using hrun
    subst hb
    simp only [List.nil_append] at h0 h1 h2
    unfold ConstantArrayBuilder.size ConstantArraySlice.size
    rw [h0, h1, h2, hT0, hT1, hT2]
    simp only [List.length_take, List.length_drop]
    split_ifs <;> omega

theorem size_scan_and_count_witness :
    fullTier0.size = sizeSpec fullTier0 ∧ c5scn.size = 5 :=
  ⟨size_scan_and_count.1 fullTier0,
   size_scan_and_count.2
     [Obj.val 1, Obj.val 2, Obj.val 3, Obj.val 4, Obj.val 5] 4 8 16 c5scn
     (by decide) (by decide) rfl⟩

theorem loop_fst_nil (L : Nat) (acc : List Obj) :
    (toFixedArrayLoop L [] acc).1 = acc := rfl

theorem loop_fst (L : Nat) (s : ConstantArraySlice) (rest : List ConstantArraySlice)
    (acc : List Obj) :
    (toFixedArrayLoop L (s :: rest) acc).1 =
      if acc.length = L then acc
      else (toFixedArrayLoop L rest
        ((acc ++ s.constants) ++ List.replicate
          (min (L - (acc ++ s.constants).length) (s.capacity - s.size))
          Obj.theHole)).1 := by
  rw [toFixedArrayLoop]
  split_ifs with h
  · rfl
  · rfl

theorem getElem?_eq_some_getD (l : List Obj) (i : Nat) (h : i < l.length) :
    l[i]? = some (l.getD i Obj.theHole) := by
  rw [List.getElem?_eq_getElem h, List.getD_eq_getElem _ _ h]

theorem serialize_case0 (b : ConstantArrayBuilder)
    (hs0 : b.slice0.start_index = 0)
    (h1 : b.slice1.constants.length = 0) (h2 : b.slice2.constants.length = 0) :
    b.size = b.slice0.constants.length ∧ b.ToFixedArray = b.slice0.constants := by
  have hL : b.size = b.slice0.constants.length := by
    unfold ConstantArrayBuilder.size ConstantArraySlice.size
    rw [hs0]
    split_ifs <;> omega
  refine ⟨hL, ?_⟩
  unfold ConstantArrayBuilder.ToFixedArray
  rw [hL]
  rcases Nat.eq_zero_or_pos b.slice0.constants.length with h0 | h0
  · rw [loop_fst, if_pos (by simp [h0])]
    rw [List.length_eq_zero.1 h0]
  · rw [loop_fst, if_neg (by simp; omega)]
    have hp : min (b.slice0.constants.length -
        (([] : List Obj) ++ b.slice0.constants).length)
        (b.slice0.capacity - b.slice0.size) = 0 := by
      simp
    rw [hp, List.replicate_zero, List.append_nil, List.nil_append]
    rw [loop_fst, if_pos rfl]

theorem serialize_case1 (b : ConstantArrayBuilder)
    (hs1 : b.slice1.start_index = b.slice0.capacity)
    (hc0 : 0 < b.slice0.capacity)
    (hl0 : b.slice0.constants.length ≤ b.slice0.capacity)
    (h1 : 0 < b.slice1.constants.length) (h2 : b.slice2.constants.length = 0) :
    b.size = b.slice0.capacity + b.slice1.constants.length ∧
    b.ToFixedArray = (b.slice0.constants ++
      List.replicate (b.slice0.capacity - b.slice0.constants.length) Obj.theHole) ++
      b.slice1.constants := by
  have hL : b.size = b.slice0.capacity + b.slice1.constants.length := by
    unfold ConstantArrayBuilder.size ConstantArraySlice.size
    rw [hs1]
    split_ifs <;> omega
  refine ⟨hL, ?_⟩
  unfold ConstantArrayBuilder.ToFixedArray
  rw [hL]
  rw [loop_fst, if_neg (by simp; omega)]
  have hp0 : min (b.slice0.capacity + b.slice1.constants.length -
      (([] : List Obj) ++ b.slice0.constants).length)
      (b.slice0.capacity - b.slice0.size) =
      b.slice0.capacity - b.slice0.constants.length := by
    unfold ConstantArraySlice.size
    simp only [List.nil_append]
    omega
  rw [hp0, List.nil_append]
  rw [loop_fst, if_neg (by
    simp only [List.length_append, List.length_replicate]
    omega)]
  have hp1 : min (b.slice0.capacity + b.slice1.constants.length -
      (((b.slice0.constants ++ List.replicate
        (b.slice0.capacity - b.slice0.constants.length) Obj.theHole)) ++
        b.slice1.constants).length)
      (b.slice1.capacity - b.slice1.size) = 0 := by
    unfold ConstantArraySlice.size
    simp only [List.length_append, List.length_replicate]
    omega
  rw [hp1, List.replicate_zero, List.append_nil]
  rw [loop_fst, if_pos (by
    simp only [List.length_append, List.length_replicate]
    omega)]

theorem serialize_case2 (b : ConstantArrayBuilder)
    (hs2 : b.slice2.start_index = b.slice0.capacity + b.slice1.capacity)
    (hc0 : 0 < b.slice0.capacity) (hc1 : 0 < b.slice1.capacity)
    (hl0 : b.slice0.constants.length ≤ b.slice0.capacity)
    (hl1 : b.slice1.constants.length ≤ b.slice1.capacity)
    (h2 : 0 < b.slice2.constants.length) :
    b.size = b.slice0.capacity + b.slice1.capacity + b.slice2.constants.length ∧
    b.ToFixedArray = (((b.slice0.constants ++
      List.replicate (b.slice0.capacity - b.slice0.constants.length) Obj.theHole) ++
      b.slice1.constants) ++
      List.replicate (b.slice1.capacity - b.slice1.constants.length) Obj.theHole) ++
      b.slice2.constants := by
  have hL : b.size = b.slice0.capacity + b.slice1.capacity +
      b.slice2.constants.length := by
    unfold ConstantArrayBuilder.size ConstantArraySlice.size
    rw [hs2]
    split_ifs
    omega
  refine ⟨hL, ?_⟩
  unfold ConstantArrayBuilder.ToFixedArray
  rw [hL]
  rw [loop_fst, if_neg (by simp; omega)]
  have hp0 : min (b.slice0.capacity + b.slice1.capacity + b.slice2.constants.length -
      (([] : List Obj) ++ b.slice0.constants).length)
      (b.slice0.capacity - b.slice0.size) =
      b.slice0.capacity - b.slice0.constants.length := by
    unfold ConstantArraySlice.size
    simp only [List.nil_append]
    omega
  rw [hp0, List.nil_append]
  rw [loop_fst, if_neg (by
    simp only [List.length_append, List.length_replicate]
    omega)]
  have hp1 : min (b.slice0.capacity + b.slice1.capacity + b.slice2.constants.length -
      (((b.slice0.constants ++ List.replicate
        (b.slice0.capacity - b.slice0.constants.length) Obj.theHole)) ++
        b.slice1.constants).length)
      (b.slice1.capacity - b.slice1.size) =
      b.slice1.capacity - b.slice1.constants.length := by
    unfold ConstantArraySlice.size
    simp only [List.length_append, List.length_replicate]
    omega
  rw [hp1]
  rw [loop_fst, if_neg (by
    simp only [List.length_append, List.length_replicate]
    omega)]
  have hp2 : min (b.slice0.capacity + b.slice1.capacity + b.slice2.constants.length -
      (((((b.slice0.constants ++ List.replicate
        (b.slice0.capacity - b.slice0.constants.length) Obj.theHole)) ++
        b.slice1.constants) ++ List.replicate
        (b.slice1.capacity - b.slice1.constants.length) Obj.theHole) ++
        b.slice2.constants).length)
      (b.slice2.capacity - b.slice2.size) = 0 := by
    unfold ConstantArraySlice.size
    simp only [List.length_append, List.length_replicate]
    omega
  rw [hp2, List.replicate_zero, List.append_nil]
  rw [loop_fst_nil]

/-- C2: for every reachable builder state, serialization produces a sequence
of length `size`, and the entry at every position `i < size` is exactly what
`At i` returns (the hole sentinel where a slot is unfilled). -/
theorem serialize_matches_At (b : ConstantArrayBuilder) (hR : Reachable b) :
    b.ToFixedArray.length = b.size ∧
    ∀ i : Nat, i < b.size → b.ToFixedArray[i]? = b.At i := by
  obtain ⟨⟨hs0, hs1, hs2, hc0, hc1, hc2⟩, hv0, hv1, hv2⟩ := reachable_inv hR
  have hS' : Structured b := ⟨hs0, hs1, hs2, hc0, hc1, hc2⟩
  have hl0 : b.slice0.constants.length ≤ b.slice0.capacity := by
    unfold SliceInv at hv0; omega
  have hl1 : b.slice1.constants.length ≤ b.slice1.capacity := by
    unfold SliceInv at hv1; omega
  have hl2 : b.slice2.constants.length ≤ b.slice2.capacity := by
    unfold SliceInv at hv2; omega
  have hAt0 : ∀ i : Nat, i < b.slice0.capacity →
      b.At i = if i < b.slice0.constants.length
        then some (b.slice0.constants.getD i Obj.theHole) else some Obj.theHole := by
    intro i hi
    have hid : b.IndexToSliceId i = some .s0 :=
      indexToSliceId_of_mem b hS' .s0 (by simp only [getSlice_s0]; omega)
        (by simp only [getSlice_s0]; omega)
    unfold ConstantArrayBuilder.At
    rw [hid]
    show (if i < b.slice0.start_index + b.slice0.size
          then some (b.slice0.At i) else some Obj.theHole) = _
    unfold ConstantArraySlice.size ConstantArraySlice.At
    rw [hs0]
    simp only [Nat.zero_add, Nat.sub_zero]
  have hAt1 : ∀ i : Nat, b.slice0.capacity ≤ i →
      i < b.slice0.capacity + b.slice1.capacity →
      b.At i = if i < b.slice0.capacity + b.slice1.constants.length
        then some (b.slice1.constants.getD (i - b.slice0.capacity) Obj.theHole)
        else some Obj.theHole := by
    intro i hi1 hi2
    have hid : b.IndexToSliceId i = some .s1 :=
      indexToSliceId_of_mem b hS' .s1 (by simp only [getSlice_s1]; omega)
        (by simp only [getSlice_s1]; omega)
    unfold ConstantArrayBuilder.At
    rw [hid]
    show (if i < b.slice1.start_index + b.slice1.size
          then some (b.slice1.At i) else some Obj.theHole) = _
    unfold ConstantArraySlice.size ConstantArraySlice.At
    rw [hs1]
  have hAt2 : ∀ i : Nat, b.slice0.capacity + b.slice1.capacity ≤ i →
      i < b.slice0.capacity + b.slice1.capacity + b.slice2.capacity →
      b.At i = if i < b.slice0.capacity + b.slice1.capacity +
          b.slice2.constants.length
        then some (b.slice2.constants.getD
          (i - (b.slice0.capacity + b.slice1.capacity)) Obj.theHole)
        else some Obj.theHole := by
    intro i hi1 hi2
    have hid : b.IndexToSliceId i = some .s2 :=
      indexToSliceId_of_mem b hS' .s2 (by simp only [getSlice_s2]; omega)
        (by simp only [getSlice_s2]; omega)
    unfold ConstantArrayBuilder.At
    rw [hid]
    show (if i < b.slice2.start_index + b.slice2.size
          then some (b.slice2.At i) else some Obj.theHole) = _
    unfold ConstantArraySlice.size ConstantArraySlice.At
    rw [hs2]
  rcases Nat.eq_zero_or_pos b.slice2.constants.length with h2 | h2
  · rcases Nat.eq_zero_or_pos b.slice1.constants.length with h1 | h1
    · obtain ⟨hL, hTF⟩ := serialize_case0 b hs0 h1 h2
      refine ⟨by rw [hTF, hL], ?_⟩
      intro i hi
      rw [hL] at hi
      rw [hTF, getElem?_eq_some_getD _ _ hi, hAt0 i (by omega), if_pos hi]
    · obtain ⟨hL, hTF⟩ := serialize_case1 b hs1 hc0 hl0 h1 h2
      have hlen01 : (b.slice0.constants ++ List.replicate
          (b.slice0.capacity - b.slice0.constants.length) Obj.theHole).length =
          b.slice0.capacity := by
        simp only [List.length_append, List.length_replicate]
        omega
      refine ⟨?_, ?_⟩
      · rw [hTF, hL]
        simp only [List.length_append, List.length_replicate]
        omega
      intro i hi
      rw [hL] at hi
      rw [hTF]
      by_cases hA : i < b.slice0.capacity
      · rw [List.getElem?_append_left (by rw [hlen01]; exact hA)]
        rw [hAt0 i hA]
        by_cases hB : i < b.slice0.constants.length
        · rw [List.getElem?_append_left hB, getElem?_eq_some_getD _ _ hB, if_pos hB]
        · rw [List.getElem?_append_right (by omega), if_neg hB,
            List.getElem?_replicate, if_pos (by omega)]
      · rw [List.getElem?_append_right (by rw [hlen01]; omega), hlen01]
        rw [hAt1 i (by omega) (by omega), if_pos (by omega)]
        rw [getElem?_eq_some_getD _ _ (by omega)]
  · obtain ⟨hL, hTF⟩ := serialize_case2 b hs2 hc0 hc1 hl0 hl1 h2
    have hlen01 : (b.slice0.constants ++ List.replicate
        (b.slice0.capacity - b.slice0.constants.length) Obj.theHole).length =
        b.slice0.capacity := by
      simp only [List.length_append, List.length_replicate]
      omega
    have hlen012 : ((b.slice0.constants ++ List.replicate
        (b.slice0.capacity - b.slice0.constants.length) Obj.theHole) ++
        b.slice1.constants).length =
        b.slice0.capacity + b.slice1.constants.length := by
      simp only [List.length_append, List.length_replicate]
      omega
    have hlen0123 : (((b.slice0.constants ++ List.replicate
        (b.slice0.capacity - b.slice0.constants.length) Obj.theHole) ++
        b.slice1.constants) ++ List.replicate
        (b.slice1.capacity - b.slice1.constants.length) Obj.theHole).length =
        b.slice0.capacity + b.slice1.capacity := by
      simp only [List.length_append, List.length_replicate]
      omega
    refine ⟨?_, ?_⟩
    · rw [hTF, hL]
      simp only [List.length_append, List.length_replicate]
      omega
    intro i hi
    rw [hL] at hi
    rw [hTF]
    by_cases hA : i < b.slice0.capacity
    · rw [List.getElem?_append_left (by rw [hlen0123]; omega)]
      rw [List.getElem?_append_left (by rw [hlen012]; omega)]
      rw [List.getElem?_append_left (by rw [hlen01]; exact hA)]
      rw [hAt0 i hA]
      by_cases hB : i < b.slice0.constants.length
      · rw [List.getElem?_append_left hB, getElem?_eq_some_getD _ _ hB, if_pos hB]
      · rw [List.getElem?_append_right (by omega), if_neg hB,
          List.getElem?_replicate, if_pos (by omega)]
    · by_cases hC : i < b.slice0.capacity + b.slice1.constants.length
      · rw [List.getElem?_append_left (by rw [hlen0123]; omega)]
        rw [List.getElem?_append_left (by rw [hlen012]; omega)]
        rw [List.getElem?_append_right (by rw [hlen01]; omega), hlen01]
        rw [hAt1 i (by omega) (by omega), if_pos (by omega)]
        rw [getElem?_eq_some_getD _ _ (by omega)]
      · by_cases hD : i < b.slice0.capacity + b.slice1.capacity
        · rw [List.getElem?_append_left (by rw [hlen0123]; omega)]
          rw [List.getElem?_append_right (by rw [hlen012]; omega), hlen012]
          rw [hAt1 i (by omega) (by omega), if_neg (by omega),
            List.getElem?_replicate, if_pos (by omega)]
        · rw [List.getElem?_append_right (by rw [hlen0123]; omega), hlen0123]
          rw [hAt2 i (by omega) (by omega), if_pos (by omega)]
          rw [getElem?_eq_some_getD _ _ (by omega)]

theorem reachable_insertAll (vs : List Obj) :
    ∀ {b b' : ConstantArrayBuilder}, Reachable b → insertAll b vs = some b' →
    Reachable b' := by
  induction vs with
  | nil =>
      intro b b' h hrun
      unfold insertAll at hrun
      simp only [Option.some.injEq] at hrun
      rw [← hrun]
      exact h
  | cons v rest ih =>
      intro b b' h hrun
      unfold insertAll at hrun
      cases hins : b.Insert v with
      | none => rw [hins] at hrun; exact Option.noConfusion hrun
      | some p =>
          obtain ⟨i, b1⟩ := p
          rw [hins] at hrun
          exact ih (Reachable.insert h hins) hrun

theorem serialize_matches_At_witness :
    c5scn.ToFixedArray.length = c5scn.size ∧
    c5scn.ToFixedArray[4]? = c5scn.At 4 :=
  ⟨(serialize_matches_At c5scn
      (reachable_insertAll
        [Obj.val 1, Obj.val 2, Obj.val 3, Obj.val 4, Obj.val 5]
        (Reachable.init 4 8 16 (by decide) (by decide) (by decide)) rfl)).1,
   (serialize_matches_At c5scn
      (reachable_insertAll
        [Obj.val 1, Obj.val 2, Obj.val 3, Obj.val 4, Obj.val 5]
        (Reachable.init 4 8 16 (by decide) (by decide) (by decide)) rfl)).2
      4 (by decide)⟩

theorem Insert_registers (b : ConstantArrayBuilder) (v : Obj) (i : Nat)
    (b' : ConstantArrayBuilder) (h : b.Insert v = some (i, b')) :
    lookupMap b'.constants_map v = some i := by
  unfold ConstantArrayBuilder.Insert at h
  cases hl : lookupMap b.constants_map v with
  | some j =>
      rw [hl] at h
      simp only [Option.some.injEq, Prod.mk.injEq] at h
      obtain ⟨rfl, rfl⟩ := h
      exact hl
  | none =>
      rw [hl] at h
      unfold ConstantArrayBuilder.AllocateEntry at h
      cases hai : b.AllocateIndex v with
      | none => rw [hai] at h; exact Option.noConfusion h
      | some p =>
          obtain ⟨i0, b0⟩ := p
          simp only [hai, Option.some.injEq, Prod.mk.injEq] at h
          rw [← h.2]
          show lookupMap (mapUpdate b0.constants_map v i0) v = some i
          rw [lookupMap_mapUpdate_self, h.1]

theorem keepsIdentity_preserves (v : Obj) (i : Nat) (b b' : ConstantArrayBuilder)
    (h : KeepsIdentity v b b') (hl : lookupMap b.constants_map v = some i) :
    lookupMap b'.constants_map v = some i := by
  cases h with
  | insert hop =>
      rename_i u j
      unfold ConstantArrayBuilder.Insert at hop
      cases hlu : lookupMap b.constants_map u with
      | some k =>
          simp only [hlu, Option.some.injEq, Prod.mk.injEq] at hop
          rw [← hop.2]
          exact hl
      | none =>
          have huv : u ≠ v := by
            intro he
            rw [he, hl] at hlu
            exact Option.noConfusion hlu
          simp only [hlu] at hop
          unfold ConstantArrayBuilder.AllocateEntry at hop
          cases hai : b.AllocateIndex u with
          | none => rw [hai] at hop; exact Option.noConfusion hop
          | some p =>
              obtain ⟨j0, b0⟩ := p
              simp only [hai, Option.some.injEq, Prod.mk.injEq] at hop
              obtain ⟨t, _, _, hb0⟩ := AllocateIndex_spec b u j0 b0 hai
              rw [← hop.2]
              show lookupMap (mapUpdate b0.constants_map u j0) v = some i
              rw [lookupMap_mapUpdate_ne _ _ (fun he => huv he.symm), hb0,
                constants_map_setSlice]
              exact hl
  | allocateHole hop =>
      obtain ⟨t, _, _, hb'⟩ := AllocateIndex_spec b Obj.theHole _ b' hop
      rw [hb', constants_map_setSlice]
      exact hl
  | insertAllocated hop =>
      rename_i j u
      unfold ConstantArrayBuilder.InsertAllocatedEntry at hop
      cases ht : b.IndexToSliceId j with
      | none => rw [ht] at hop; exact Option.noConfusion hop
      | some t =>
          simp only [ht, Option.some.injEq] at hop
          rw [← hop, constants_map_setSlice]
          exact hl
  | createReserved hop =>
      unfold ConstantArrayBuilder.CreateReservedEntry at hop
      cases hfa : b.firstAvailable with
      | none => rw [hfa] at hop; exact Option.noConfusion hop
      | some t =>
          simp only [hfa, Option.some.injEq, Prod.mk.injEq] at hop
          rw [← hop.2, constants_map_setSlice]
          exact hl
  | commitReservedOther huv hop =>
      rename_i w u j
      unfold ConstantArrayBuilder.CommitReservedEntry at hop
      cases hd : b.DiscardReservedEntry w with
      | none => rw [hd] at hop; exact Option.noConfusion hop
      | some b1 =>
          rw [hd] at hop
          have hm1 : b1.constants_map = b.constants_map := by
            unfold ConstantArrayBuilder.DiscardReservedEntry at hd
            cases htw : OperandSizeToSliceId w with
            | none => rw [htw] at hd; exact Option.noConfusion hd
            | some t =>
                simp only [htw, Option.some.injEq] at hd
                rw [← hd, constants_map_setSlice]
          have hl1 : lookupMap b1.constants_map v = some i := by
            rw [hm1]
            exact hl
          cases hlu : lookupMap b1.constants_map u with
          | none =>
              simp only [hlu] at hop
              unfold ConstantArrayBuilder.AllocateEntry at hop
              cases hai : b1.AllocateIndex u with
              | none => rw [hai] at hop; exact Option.noConfusion hop
              | some p =>
                  obtain ⟨j0, b0⟩ := p
                  simp only [hai, Option.some.injEq, Prod.mk.injEq] at hop
                  obtain ⟨t, _, _, hb0⟩ := AllocateIndex_spec b1 u j0 b0 hai
                  rw [← hop.2]
                  show lookupMap (mapUpdate b0.constants_map u j0) v = some i
                  rw [lookupMap_mapUpdate_ne _ _ (fun he => huv he.symm), hb0,
                    constants_map_setSlice]
                  exact hl1
          | some idx =>
              simp only [hlu] at hop
              cases htw : OperandSizeToSliceId w with
              | none => rw [htw] at hop; exact Option.noConfusion hop
              | some t =>
                  simp only [htw] at hop
                  by_cases hw : (b1.getSlice t).max_index < idx
                  · rw [if_pos hw] at hop
                    simp only [Option.some.injEq, Prod.mk.injEq] at hop
                    rw [← hop.2]
                    show lookupMap (mapUpdate b1.constants_map u
                      ((b1.getSlice t).Allocate u).1) v = some i
                    rw [lookupMap_mapUpdate_ne _ _ (fun he => huv he.symm)]
                    exact hl1
                  · rw [if_neg hw] at hop
                    simp only [Option.some.injEq, Prod.mk.injEq] at hop
                    rw [← hop.2]
                    exact hl1
  | commitReservedReuse hop hkeep =>
      rw [hkeep]
      exact hl
  | discardReserved hop =>
      rename_i w
      unfold ConstantArrayBuilder.DiscardReservedEntry at hop
      cases htw : OperandSizeToSliceId w with
      | none => rw [htw] at hop; exact Option.noConfusion hop
      | some t =>
          simp only [htw, Option.some.injEq] at hop
          rw [← hop, constants_map_setSlice]
          exact hl

theorem keepsIdentity_chain (v : Obj) (i : Nat) (b b2 : ConstantArrayBuilder)
    (h : Relation.ReflTransGen (KeepsIdentity v) b b2)
    (hl : lookupMap b.constants_map v = some i) :
    lookupMap b2.constants_map v = some i := by
  induction h with
  | refl => exact hl
  | tail _ hstep ih => exact keepsIdentity_preserves v i _ _ hstep ih

/-- C3: for every value `v`, any sequence of repeated `Insert v` calls with
no intervening commit that re-points `v`'s identity returns the same global
index on every call: if `Insert b v` returns index `i` in state `b'`, then
an immediate repetition returns `(i, b')` again, and after any chain of
further public operations none of which re-points `v`'s dedup entry
(`Insert`s of any values, forward-reference allocations and fills,
reservations, discards, and commits that concern other values or leave
`v`'s entry unchanged), `Insert v` still returns `i` and leaves the state
unchanged. -/
theorem Insert_idempotent (b : ConstantArrayBuilder) (v : Obj) (i : Nat)
    (b' : ConstantArrayBuilder) (h : b.Insert v = some (i, b')) :
    b'.Insert v = some (i, b') ∧
    ∀ b2 : ConstantArrayBuilder, Relation.ReflTransGen (KeepsIdentity v) b' b2 →
      b2.Insert v = some (i, b2) := by
  have hreg := Insert_registers b v i b' h
  constructor
  · unfold ConstantArrayBuilder.Insert
    simp only [hreg]
  · intro b2 hchain
    have hl2 := keepsIdentity_chain v i b' b2 hchain hreg
    unfold ConstantArrayBuilder.Insert
    simp only [hl2]

theorem Insert_idempotent_witness :
    c3b1.Insert (Obj.val 7) = some (0, c3b1) ∧
    c3b3.Insert (Obj.val 7) = some (0, c3b3) :=
  ⟨(Insert_idempotent (ConstantArrayBuilder.new 4 4 4) (Obj.val 7) 0 c3b1 rfl).1,
   (Insert_idempotent (ConstantArrayBuilder.new 4 4 4) (Obj.val 7) 0 c3b1 rfl).2 c3b3
     (Relation.ReflTransGen.tail
       (Relation.ReflTransGen.tail Relation.ReflTransGen.refl
         (@KeepsIdentity.insert (Obj.val 7) c3b1 (Obj.val 8) 1 c3b2 rfl))
       (@KeepsIdentity.allocateHole (Obj.val 7) c3b2 2 c3b3 rfl))⟩
